import Mathlib

/-
Verification of the Card Replication & Bidirectional Synchronization Engine
of run_mirror_sync.py: the eligibility evaluator, the metadata codec embedded
in card descriptions, and the reverse-sync functions (checklists, members,
attachments), together with the run orchestration (list clearing) and the
transport-failure policy.  Python dicts are modelled as association lists or
functions, Python sets as finite sets, Python floats as rationals, and the
remote board service as explicit state passed in and out of each function.
-/

namespace MirrorSync

/-! ### Configured constants (module-level constants of run_mirror_sync.py) -/

def PRIORITY_LIST_NAME : String := "Priority IV"

def PROGRESS_CHECKLIST_NAME : String := "In-Progress"

def COMPLETED_LABEL_NAME : String := "Completed"

def COMPLETION_THRESHOLD : ℚ := 0.75

def MIRROR_MARKER : String := "🤖 MIRROR_METADATA:"

def MIRROR_COMMENT_MARKER : String := "[Bot] Mirrored from"

/-! ### Data model (card records as returned by the board service) -/

/-- An attachment record: `url` is `none` when the "url" key is absent
(the code reads it with `att.get("url", att.get("name", ""))`). -/
structure Attachment where
  url : Option String
  name : String
deriving DecidableEq, Repr

/-- A checklist item as it appears on a master-board card: only its
name and state string ("complete" / "incomplete") are read. -/
structure CheckItemM where
  name : String
  state : String
deriving DecidableEq, Repr

/-- A checklist on a master-board card. -/
structure ChecklistM where
  name : String
  checkItems : List CheckItemM
deriving DecidableEq, Repr

/-- A checklist item on a source card: the code additionally uses its id
(to PUT state updates).  Ids carry no structure; we model them as naturals. -/
structure CheckItemS where
  id : Nat
  name : String
  state : String
deriving DecidableEq, Repr

/-- A checklist on a source card, with its id. -/
structure ChecklistS where
  id : Nat
  name : String
  checkItems : List CheckItemS
deriving DecidableEq, Repr

/-- A comment action (`actions` filtered for `commentCard`). -/
structure CardAction where
  type : String
  text : String
deriving DecidableEq, Repr

/-- A Trello card record with the fields run_mirror_sync.py reads. -/
structure Card where
  id : String
  name : String
  desc : String
  due : Option String
  idList : String
  idLabels : List String
  idMembers : List String
  attachments : List Attachment
  checklists : List ChecklistM
  actions : List CardAction
deriving DecidableEq, Repr

/-! ### Eligibility evaluator (has_completed_label, get_checklist_progress,
should_mirror_card) -/

/-- Model of Python's `str.lower()` on the names compared by the code
(ASCII letters mapped to lower case, other characters kept). -/
def pyLower (s : String) : String := String.mk (s.data.map Char.toLower)

/-- Model of `has_completed_label`: the board's label dictionary is the
function `board_labels` (with `""` for unknown ids, as `.get(label_id, "")`). -/
def has_completed_label (card : Card) (board_labels : String → String) : Bool :=
  card.idLabels.any fun lid =>
    pyLower (board_labels lid) == pyLower COMPLETED_LABEL_NAME

/-- Model of `get_checklist_progress`: the first checklist whose name
case-insensitively equals `checklist_name` gives completed/total, else 0. -/
def get_checklist_progress (card : Card) (checklist_name : String) : ℚ :=
  match card.checklists.find? (fun cl => pyLower cl.name == pyLower checklist_name) with
  | some cl =>
      if cl.checkItems.length = 0 then 0
      else ((cl.checkItems.filter (fun it => it.state == "complete")).length : ℚ) /
        cl.checkItems.length
  | none => 0

/-- Model of `should_mirror_card`.  The current list's name (fetched by
`get_list_name` in the code) is passed in as `list_name`. -/
def should_mirror_card (card : Card) (board_labels : String → String)
    (list_name : String) : Bool :=
  if has_completed_label card board_labels then false
  else if pyLower list_name == pyLower PRIORITY_LIST_NAME then true
  else if get_checklist_progress card PROGRESS_CHECKLIST_NAME ≥ COMPLETION_THRESHOLD then
    true
  else false

/-- Completion ratio of one checklist, worded as in the spec: done items
divided by total items, and 0 when the total is 0. -/
def checklist_ratio (cl : ChecklistM) : ℚ :=
  if cl.checkItems.length = 0 then 0
  else ((cl.checkItems.filter (fun it => it.state == "complete")).length : ℚ) /
    cl.checkItems.length

/-! ### Member sync (sync_members) -/

/-- Members the code adds to the source card: `master_members - source_members`. -/
def sync_members_added (master_members source_members : Finset String) : Finset String :=
  master_members \ source_members

/-- Members the code removes from the source card: `source_members - master_members`. -/
def sync_members_removed (master_members source_members : Finset String) : Finset String :=
  source_members \ master_members

/-- The source card's member set after `sync_members`, assuming every POST and
DELETE succeeds: additions applied first, then removals, as in the code. -/
def sync_members_result (master_members source_members : Finset String) : Finset String :=
  (source_members ∪ sync_members_added master_members source_members) \
    sync_members_removed master_members source_members

/-! ### Attachment sync (sync_attachments) -/

/-- The dictionary key the code computes for an attachment:
`att.get("url", att.get("name", ""))`. -/
def attKey (a : Attachment) : String := a.url.getD a.name

/-- Truthiness of `attachment.get("url")`: present and non-empty. -/
def truthy_url (a : Attachment) : Bool :=
  match a.url with
  | some u => u ≠ ""
  | none => false

/-- Key list of a Python dict built by comprehension: first-occurrence order. -/
def dedupKeys : List String → List String
  | [] => []
  | k :: rest => k :: (dedupKeys rest).filter (fun x => x ≠ k)

/-- Value stored in a Python dict built by comprehension: the last entry wins. -/
def lookupLastAtt (l : List Attachment) (k : String) : Option Attachment :=
  l.reverse.find? (fun a => attKey a == k)

/-- URLs `sync_attachments` posts to the source card: master-dict entries whose
key is absent from the source dict and whose url is truthy. -/
def sync_attachments_added (master source : List Attachment) : List String :=
  (dedupKeys (master.map attKey)).filterMap fun k =>
    match lookupLastAtt master k with
    | some a => if !(source.map attKey).contains k && truthy_url a then a.url else none
    | none => none

/-- The source card's attachments after `sync_attachments`, all POSTs
succeeding: the code issues only attachment-creating POSTs, so the existing
sequence is kept and the new urls are appended. -/
def sync_attachments_result (master source : List Attachment) : List Attachment :=
  source ++ (sync_attachments_added master source).map fun u => ⟨some u, u⟩

/-! ### Checklist sync (sync_checklists) -/

/-- Value stored under `item["name"]` in `source_items`: the last item with
that name wins, as for a Python dict comprehension. -/
def lookupLastItem (items : List CheckItemS) (n : String) : Option CheckItemS :=
  items.reverse.find? (fun it => it.name == n)

/-- Effect of `PUT cards/../checkItem/{id} state=st` on a checklist's items. -/
def updateItemState (items : List CheckItemS) (iid : Nat) (st : String) :
    List CheckItemS :=
  items.map fun it => if it.id = iid then { it with state := st } else it

/-- One iteration of the item loop of `sync_checklists`: look the master item's
name up in the dict built from the pre-loop GET (`dict`), update the matched
item's state by id when it differs, otherwise POST a new item (whose checked
flag is `state == "complete"`).  `acc` carries the current items and the next
fresh id handed out by the service. -/
def checkItemStep (dict : List CheckItemS) (acc : List CheckItemS × Nat)
    (m : CheckItemM) : List CheckItemS × Nat :=
  match lookupLastItem dict m.name with
  | some s =>
      if s.state ≠ m.state then (updateItemState acc.1 s.id m.state, acc.2) else acc
  | none =>
      (acc.1 ++ [⟨acc.2, m.name, if m.state = "complete" then "complete" else "incomplete"⟩],
        acc.2 + 1)

/-- The item loop of `sync_checklists` over one matched checklist, all calls
succeeding: the dict is built once from the initial items, then each master
item is processed in order. -/
def syncCheckItems (ms : List CheckItemM) (items0 : List CheckItemS) (fresh : Nat) :
    List CheckItemS × Nat :=
  ms.foldl (checkItemStep items0) (items0, fresh)

/-- Value stored under `cl["name"]` in `source_checklist_map` (last wins). -/
def lookupLastChecklist (cls : List ChecklistS) (n : String) : Option ChecklistS :=
  cls.reverse.find? (fun cl => cl.name == n)

/-- One iteration of the checklist loop of `sync_checklists`: master checklists
whose name is absent from the source map are skipped; otherwise the matched
source checklist (re-fetched, hence read from the current state `acc.1`) has
its items synced. -/
def checklistStep (sourceInit : List ChecklistS) (acc : List ChecklistS × Nat)
    (mcl : ChecklistM) : List ChecklistS × Nat :=
  match lookupLastChecklist sourceInit mcl.name with
  | some scl0 =>
      match acc.1.find? (fun cl => cl.id == scl0.id) with
      | some cur =>
          let r := syncCheckItems mcl.checkItems cur.checkItems acc.2
          (acc.1.map (fun cl => if cl.id = scl0.id then { cl with checkItems := r.1 } else cl),
            r.2)
      | none => acc
  | none => acc

/-- Model of `sync_checklists`, all calls succeeding: the name-to-checklist map
is built once from the initial source state, then each master checklist is
processed in order against the current state. -/
def sync_checklists (mcls : List ChecklistM) (source : List ChecklistS) (fresh : Nat) :
    List ChecklistS × Nat :=
  mcls.foldl (checklistStep source) (source, fresh)

/-! ### Metadata codec (create_mirror_metadata, extract_mirror_metadata, and
the description-stripping step of sync_card_changes).  Python strings are
sequences of code points, modelled as `List Char`; `str.find`, `str.strip`,
`json.dumps` (ensure_ascii) and the `json.loads` calls of the codec are
modelled character by character. -/

/-- Whitespace stripped by Python's `str.strip()`: the code points on which
`str.isspace()` holds — the ASCII controls 09-0D, the separators 1C-1F,
space, NEL (85), NBSP (A0), Ogham space mark (1680), the 2000-200A spaces,
line separator (2028), paragraph separator (2029), narrow NBSP (202F),
medium mathematical space (205F), and ideographic space (3000). -/
def isPySpace (c : Char) : Bool :=
  (9 ≤ c.toNat ∧ c.toNat ≤ 13) ∨ (28 ≤ c.toNat ∧ c.toNat ≤ 31) ∨ c.toNat = 32 ∨
    c.toNat = 133 ∨ c.toNat = 160 ∨ c.toNat = 5760 ∨
    (8192 ≤ c.toNat ∧ c.toNat ≤ 8202) ∨ c.toNat = 8232 ∨ c.toNat = 8233 ∨
    c.toNat = 8239 ∨ c.toNat = 8287 ∨ c.toNat = 12288

/-- Model of Python's `str.strip()`. -/
def pyStrip (l : List Char) : List Char :=
  ((l.dropWhile isPySpace).reverse.dropWhile isPySpace).reverse

/-- Strip an expected leading token, or fail. -/
def stripPre : List Char → List Char → Option (List Char)
  | [], l => some l
  | _ :: _, [] => none
  | p :: ps, c :: cs => if c = p then stripPre ps cs else none

/-- Does `hay` start with `needle`? -/
def hasPre (needle hay : List Char) : Bool := (stripPre needle hay).isSome

/-- Model of Python's `str.find`: index of the first occurrence of `needle`,
`none` standing for the -1 of a miss. -/
def findSub (needle : List Char) : List Char → Option Nat
  | [] => if needle.isEmpty then some 0 else none
  | c :: t => if hasPre needle (c :: t) then some 0 else (findSub needle t).map (· + 1)

/-- Lowercase hex digit, as `json.dumps` emits in `\uXXXX` escapes. -/
def hexDigitChar (n : Nat) : Char :=
  if n < 10 then Char.ofNat (48 + n) else Char.ofNat (87 + n)

/-- Four lowercase hex digits of a value below 0x10000. -/
def toHex4 (n : Nat) : List Char :=
  [hexDigitChar (n / 4096 % 16), hexDigitChar (n / 256 % 16),
    hexDigitChar (n / 16 % 16), hexDigitChar (n % 16)]

/-- The escaping `json.dumps` (default ensure_ascii) applies to one character
of a string: quote and backslash escaped, the control shorthands, printable
ASCII literal, and everything else as `\uXXXX` (a surrogate pair beyond the
basic plane). -/
def escChar (c : Char) : List Char :=
  if c = '"' then ['\\', '"']
  else if c = '\\' then ['\\', '\\']
  else if c = '\n' then ['\\', 'n']
  else if c = '\r' then ['\\', 'r']
  else if c = '\t' then ['\\', 't']
  else if c.toNat = 8 then ['\\', 'b']
  else if c.toNat = 12 then ['\\', 'f']
  else if 32 ≤ c.toNat ∧ c.toNat ≤ 126 then [c]
  else if c.toNat < 65536 then '\\' :: 'u' :: toHex4 c.toNat
  else ('\\' :: 'u' :: toHex4 (55296 + (c.toNat - 65536) / 1024)) ++
    ('\\' :: 'u' :: toHex4 (56320 + (c.toNat - 65536) % 1024))

/-- Escaping of a whole string body, as `json.dumps` does it. -/
def escapeL : List Char → List Char
  | [] => []
  | c :: t => escChar c ++ escapeL t

/-- Value of one hex digit accepted by the JSON string parser. -/
def hexVal (c : Char) : Option Nat :=
  if 48 ≤ c.toNat ∧ c.toNat ≤ 57 then some (c.toNat - 48)
  else if 97 ≤ c.toNat ∧ c.toNat ≤ 102 then some (c.toNat - 87)
  else if 65 ≤ c.toNat ∧ c.toNat ≤ 70 then some (c.toNat - 55)
  else none

/-- Value of four hex digits. -/
def hex4 (a b c d : Char) : Option Nat :=
  match hexVal a, hexVal b, hexVal c, hexVal d with
  | some x, some y, some z, some w => some (x * 4096 + y * 256 + z * 16 + w)
  | _, _, _, _ => none

/-- Prepend a decoded character to a string-parse result. -/
def consR (c : Char) (o : Option (List Char × List Char)) :
    Option (List Char × List Char) :=
  o.map fun p => (c :: p.1, p.2)

/-- Combine a decoded low surrogate with the pending high value `v`:
the code point is `0x10000 + (hi - 0xD800)*0x400 + (lo - 0xDC00)`. -/
def decodeLow (v : Nat) : Option Nat → List Char → Option (Char × List Char)
  | none, _ => none
  | some w, rest4 =>
    if 56320 ≤ w ∧ w ≤ 57343 then
      some (Char.ofNat (65536 + (v - 55296) * 1024 + (w - 56320)), rest4)
    else none

/-- After a high surrogate `v`, expect a second `\uXXXX` escape. -/
def decodePair (v : Nat) : List Char → Option (Char × List Char)
  | e1 :: u1 :: a2 :: b2 :: c2 :: d2 :: rest4 =>
    if e1 = '\\' ∧ u1 = 'u' then decodeLow v (hex4 a2 b2 c2 d2) rest4 else none
  | _ => none

/-- Interpret the value of a `\uXXXX` escape: a plain code point, or the high
half of a surrogate pair. -/
def decodeU4 : Option Nat → List Char → Option (Char × List Char)
  | none, _ => none
  | some v, rest3 =>
    if v < 55296 ∨ 57344 ≤ v then some (Char.ofNat v, rest3)
    else if v ≤ 56319 then decodePair v rest3
    else none

/-- Read the four hex digits of a `\uXXXX` escape. -/
def decodeU : List Char → Option (Char × List Char)
  | a :: b1 :: c1 :: d1 :: rest3 => decodeU4 (hex4 a b1 c1 d1) rest3
  | _ => none

/-- Decode one backslash escape of a JSON string (the input starts right after
the backslash): the named escapes and `\uXXXX`, combining a surrogate pair into
one code point as `json.loads` does. -/
def decodeEsc : List Char → Option (Char × List Char)
  | [] => none
  | e :: rest2 =>
    if e = '"' then some ('"', rest2)
    else if e = '\\' then some ('\\', rest2)
    else if e = '/' then some ('/', rest2)
    else if e = 'b' then some (Char.ofNat 8, rest2)
    else if e = 'f' then some (Char.ofNat 12, rest2)
    else if e = 'n' then some ('\n', rest2)
    else if e = 'r' then some ('\r', rest2)
    else if e = 't' then some ('\t', rest2)
    else if e = 'u' then decodeU rest2
    else none

/-- The JSON string-body parser of `json.loads` (fuel-indexed for structural
recursion; the fuel only decreases once per decoded character, so any fuel of
at least the decoded length suffices): characters up to the closing quote,
decoding backslash escapes and rejecting raw control characters. -/
def parseStrBodyF : Nat → List Char → Option (List Char × List Char)
  | 0, _ => none
  | _ + 1, [] => none
  | f + 1, c :: rest =>
    if c = '"' then some ([], rest)
    else if c = '\\' then
      (decodeEsc rest).bind fun p => consR p.1 (parseStrBodyF f p.2)
    else if c.toNat < 32 then none
    else consR c (parseStrBodyF f rest)

/-- The JSON string-body parser, with fuel instantiated to the input length
(always sufficient, since each consumed character costs one unit). -/
def parseStrBody (l : List Char) : Option (List Char × List Char) :=
  parseStrBodyF l.length l

/-- The provenance record of the codec (the dict built by
`create_mirror_metadata`). -/
structure MirrorMetadata where
  source_board : String
  source_card : String
  original_desc : String
  mirrored_at : String
deriving DecidableEq, Repr

def RBRACE : Char := Char.ofNat 125

/-- Literal text of the serialized dict up to the opening quote of
`source_board`'s value. -/
def K1q : List Char := "\x7b\"source_board\": \"".data

def K1tail : List Char := "\"source_board\": \"".data

def K2q : List Char := ", \"source_card\": \"".data

def K3q : List Char := ", \"original_desc\": \"".data

def K4q : List Char := ", \"mirrored_at\": \"".data

/-- Output of `json.dumps` on the metadata dict, with its four fields in insertion
order and the default separators. -/
def dumpsChars (b c d t : List Char) : List Char :=
  K1q ++ (escapeL b ++ ('"' :: (K2q ++ (escapeL c ++ ('"' :: (K3q ++ (escapeL d ++
    ('"' :: (K4q ++ (escapeL t ++ ('"' :: [RBRACE])))))))))))

/-- Model of `json.loads` restricted to the object shape the codec serializes:
the four expected keys in order, string values, nothing trailing. -/
def parseMeta (l : List Char) : Option MirrorMetadata :=
  (stripPre K1q l).bind fun l1 =>
  (parseStrBody l1).bind fun b2 =>
  (stripPre K2q b2.2).bind fun l3 =>
  (parseStrBody l3).bind fun c4 =>
  (stripPre K3q c4.2).bind fun l5 =>
  (parseStrBody l5).bind fun d6 =>
  (stripPre K4q d6.2).bind fun l7 =>
  (parseStrBody l7).bind fun t8 =>
  if t8.2 = [RBRACE] then
    some ⟨String.mk b2.1, String.mk c4.1, String.mk d6.1, String.mk t8.1⟩
  else none

/-- Model of `create_mirror_metadata`: the marker followed by the JSON dump of
the metadata dict.  `mirrored_at` (produced by `datetime.utcnow().isoformat()`
in the code) is an input of the model. -/
def create_mirror_metadata (source_board_id source_card_id original_desc
    mirrored_at : String) : String :=
  String.mk (MIRROR_MARKER.data ++
    dumpsChars source_board_id.data source_card_id.data original_desc.data
      mirrored_at.data)

/-- The description `mirror_card` writes on the new master card:
`f"{original_desc}\n\n{mirror_metadata}"`. -/
def mirror_card_desc (source_board_id source_card_id card_desc
    mirrored_at : String) : String :=
  card_desc ++ "\n\n" ++
    create_mirror_metadata source_board_id source_card_id card_desc mirrored_at

/-- End of the metadata slice: `description.find("\n", start)`, or the string's
length when there is no later newline (`end == -1` in the code). -/
def sliceEnd (l : List Char) (start : Nat) : Nat :=
  match findSub ['\n'] (l.drop start) with
  | some j => start + j
  | none => l.length

/-- Model of `extract_mirror_metadata`: marker check, slice from the end of the
marker to the next newline (or end), `strip()`, then the JSON parse, `none` on
any failure. -/
def extract_mirror_metadata (description : String) : Option MirrorMetadata :=
  (findSub MIRROR_MARKER.data description.data).bind fun i =>
    parseMeta (pyStrip
      ((description.data.drop (i + MIRROR_MARKER.data.length)).take
        (sliceEnd description.data (i + MIRROR_MARKER.data.length) -
          (i + MIRROR_MARKER.data.length))))

/-- Model of the description-cleaning step of `sync_card_changes`: everything
before the marker, stripped; the description unchanged when no marker. -/
def strip_metadata (master_desc : String) : String :=
  match findSub MIRROR_MARKER.data master_desc.data with
  | none => master_desc
  | some i => String.mk (pyStrip (master_desc.data.take i))

def LBRACE : Char := Char.ofNat 123

/-- The serialized dict with its outer braces peeled off. -/
def dumpsMid (b c d t : List Char) : List Char :=
  K1tail ++ (escapeL b ++ ('"' :: (K2q ++ (escapeL c ++ ('"' :: (K3q ++ (escapeL d ++
    ('"' :: (K4q ++ (escapeL t ++ ['"']))))))))))

/-! ### Transport-failure model (Reverse Sync over the board service).
Each call's success (an HTTP 200) is decided by an oracle `ok`; the data a
successful GET returns comes from an environment.  Functions return the
outcome together with the list of calls they issue, in order. -/

/-- The board-service calls the reverse-sync path issues. -/
inductive ApiCall where
  | getCard (cardId : String)
  | putCard (cardId : String)
  | getCardChecklists (cardId : String)
  | getChecklist (checklistId : Nat)
  | putCheckItem (cardId : String) (itemId : Nat)
  | postCheckItem (checklistId : Nat) (itemName : String)
  | postMember (cardId memberId : String)
  | deleteMember (cardId memberId : String)
  | postAttachment (cardId url : String)
  | postComment (cardId text : String)
  | deleteCard (cardId : String)
deriving DecidableEq, Repr

/-- The remote state the run reads: cards by id, a card's checklists, and a
checklist's current items. -/
structure Env where
  card : String → Card
  cardChecklists : String → List ChecklistS
  checklist : Nat → ChecklistS

/-- Calls issued by `sync_checklists`: the checklist-map GET (stopping there
when it fails), then per matched master checklist the item GET (skipping the
checklist when it fails) and the item updates and creations. -/
def sync_checklists_ops (env : Env) (ok : ApiCall → Bool) (master_card : Card)
    (source_card_id : String) : List ApiCall :=
  if ¬ ok (ApiCall.getCardChecklists source_card_id) then
    [ApiCall.getCardChecklists source_card_id]
  else
    ApiCall.getCardChecklists source_card_id ::
      master_card.checklists.foldl (fun acc mcl =>
        acc ++
          match lookupLastChecklist (env.cardChecklists source_card_id) mcl.name with
          | some scl0 =>
            if ¬ ok (ApiCall.getChecklist scl0.id) then [ApiCall.getChecklist scl0.id]
            else
              ApiCall.getChecklist scl0.id ::
                mcl.checkItems.foldl (fun acc2 m =>
                  acc2 ++
                    match lookupLastItem (env.checklist scl0.id).checkItems m.name with
                    | some s =>
                      if s.state ≠ m.state then
                        [ApiCall.putCheckItem source_card_id s.id]
                      else []
                    | none => [ApiCall.postCheckItem scl0.id m.name]) []
          | none => []) []

/-- Calls issued by `sync_members` (set difference modelled in list order). -/
def sync_members_ops (master_card source_card : Card) (source_card_id : String) :
    List ApiCall :=
  ((master_card.idMembers.filter
      (fun m => ¬ source_card.idMembers.contains m)).map
    (fun m => ApiCall.postMember source_card_id m)) ++
  ((source_card.idMembers.filter
      (fun m => ¬ master_card.idMembers.contains m)).map
    (fun m => ApiCall.deleteMember source_card_id m))

/-- Calls issued by `sync_attachments`. -/
def sync_attachments_ops (master_card source_card : Card)
    (source_card_id : String) : List ApiCall :=
  (sync_attachments_added master_card.attachments source_card.attachments).map
    (fun u => ApiCall.postAttachment source_card_id u)

/-- Calls issued by `sync_comments`: each commentCard action with non-empty
text not starting with the bot comment marker is re-posted. -/
def sync_comments_ops (master_card : Card) (source_card_id : String) :
    List ApiCall :=
  (master_card.actions.filter (fun a =>
      a.type == "commentCard" && a.text ≠ "" &&
        ¬ hasPre MIRROR_COMMENT_MARKER.data a.text.data)).map
    (fun a => ApiCall.postComment source_card_id a.text)

/-- Model of `sync_card_changes`: returns the success flag the function
returns together with the calls it issues. A failed source-card GET or a
failed consolidated field PUT makes it return False immediately (no further
sub-step is attempted); afterwards the four sub-step syncs run and the
function returns True regardless of their outcomes. -/
def sync_card_changes_tr (env : Env) (ok : ApiCall → Bool) (master_card : Card)
    (source_card_id : String) : Bool × List ApiCall :=
  if ¬ ok (ApiCall.getCard source_card_id) then
    (false, [ApiCall.getCard source_card_id])
  else
    let source_card := env.card source_card_id
    let substeps :=
      sync_checklists_ops env ok master_card source_card_id ++
        sync_members_ops master_card source_card source_card_id ++
        sync_attachments_ops master_card source_card source_card_id ++
        sync_comments_ops master_card source_card_id
    if master_card.name ≠ source_card.name ∨
        strip_metadata master_card.desc ≠ source_card.desc ∨
        master_card.due ≠ source_card.due then
      if ¬ ok (ApiCall.putCard source_card_id) then
        (false, [ApiCall.getCard source_card_id, ApiCall.putCard source_card_id])
      else
        (true, ApiCall.getCard source_card_id :: ApiCall.putCard source_card_id ::
          substeps)
    else (true, ApiCall.getCard source_card_id :: substeps)

/-- Behaviour classes of the value `extract_mirror_metadata` hands to the
Phase-1 loop body.  The function returns whatever `json.loads` produced (any
JSON value), or None when the marker is absent or `loads` raised: a falsy
value (None, 0, "", [], an empty dict, ...) makes `if metadata:` skip the
card; a truthy dict is read with `.get` (fields quotiented to the strings the
code interpolates, `""` standing for a missing or falsy field); a truthy
non-dict value (e.g. the payload `42` or `[1]`) makes `metadata.get` raise an
uncaught AttributeError that aborts the whole run. -/
inductive ExtractOutcome where
  | falsy
  | record (source_board source_card original_desc : String)
  | badPayload
deriving DecidableEq, Repr

/-- Outcome of one Phase-1 loop iteration: skipped with a warning, synced
with `sync_card_changes`' boolean result, or crashed by an uncaught
exception (which aborts the remaining cards and phases). -/
inductive CardOutcome where
  | skipped
  | synced (success : Bool)
  | crashed
deriving DecidableEq, Repr

/-- Decode step of the Phase-1 loop body.  The marker check and the slicing
are computed exactly as in `extract_mirror_metadata` (the code returns None
before touching any JSON when the marker is absent); what `json.loads` makes
of the sliced and stripped payload is supplied by `jsonOutcome`, an input of
the model, because the code's `loads` accepts arbitrary JSON (reordered or
unspaced dicts, non-dict values), not only the canonical shape the codec
emits. -/
def extract_outcome (jsonOutcome : String → ExtractOutcome)
    (description : String) : ExtractOutcome :=
  match findSub MIRROR_MARKER.data description.data with
  | none => ExtractOutcome.falsy
  | some i =>
    jsonOutcome (String.mk (pyStrip
      ((description.data.drop (i + MIRROR_MARKER.data.length)).take
        (sliceEnd description.data (i + MIRROR_MARKER.data.length) -
          (i + MIRROR_MARKER.data.length)))))

/-- One iteration of the Phase-1 loop body of `sync_changes_from_master`:
a falsy metadata value is skipped with a warning and no call; a truthy
non-dict payload raises AttributeError (crash, before any call); a record
with falsy source_board or source_card is skipped as invalid; otherwise
`sync_card_changes` runs against the decoded source card id. -/
def process_master_card (env : Env) (ok : ApiCall → Bool)
    (jsonOutcome : String → ExtractOutcome) (card : Card) :
    CardOutcome × List ApiCall :=
  match extract_outcome jsonOutcome card.desc with
  | ExtractOutcome.falsy => (CardOutcome.skipped, [])
  | ExtractOutcome.badPayload => (CardOutcome.crashed, [])
  | ExtractOutcome.record sb sc _ =>
    if sb ≠ "" ∧ sc ≠ "" then
      (CardOutcome.synced (sync_card_changes_tr env ok card sc).1,
        (sync_card_changes_tr env ok card sc).2)
    else (CardOutcome.skipped, [])

/-- Truncate a card's call sequence at the first call that raises a transport
exception (`requests` raising instead of returning a response — the code
catches no such exception).  Which calls precede a given call depends only on
the statuses of the earlier calls, so the calls actually issued are exactly
this prefix, and the boolean records whether the run died there. -/
def splitAtThrow (throws : ApiCall → Bool) : List ApiCall → List ApiCall × Bool
  | [] => ([], false)
  | c :: rest =>
    if throws c then ([c], true)
    else ((splitAtThrow throws rest).1.cons c, (splitAtThrow throws rest).2)

/-- The Phase-1 fold step over one master list's cards: once a call has
raised (third component), no later iteration runs at all; a card whose
metadata read raises AttributeError crashes before issuing any call; a card
whose calls raise mid-way keeps the issued prefix and never produces an
outcome; otherwise the card's outcome and calls are recorded. -/
def sync_step (env : Env) (ok throws : ApiCall → Bool)
    (jsonOutcome : String → ExtractOutcome)
    (acc : List (String × CardOutcome) × List ApiCall × Bool) (card : Card) :
    List (String × CardOutcome) × List ApiCall × Bool :=
  if acc.2.2 then acc
  else if (process_master_card env ok jsonOutcome card).1 = CardOutcome.crashed then
    (acc.1, acc.2.1, true)
  else if (splitAtThrow throws (process_master_card env ok jsonOutcome card).2).2 then
    (acc.1,
      acc.2.1 ++ (splitAtThrow throws (process_master_card env ok jsonOutcome card).2).1,
      true)
  else
    (acc.1 ++ [(card.name, (process_master_card env ok jsonOutcome card).1)],
      acc.2.1 ++ (splitAtThrow throws (process_master_card env ok jsonOutcome card).2).1,
      false)

/-- Model of `sync_changes_from_master` over one master list: per-card
outcomes, the calls issued, and whether an uncaught exception killed the
run. -/
def sync_changes_from_master_tr (env : Env) (ok throws : ApiCall → Bool)
    (jsonOutcome : String → ExtractOutcome) (cards : List Card) :
    List (String × CardOutcome) × List ApiCall × Bool :=
  cards.foldl (sync_step env ok throws jsonOutcome) ([], [], false)

/-- Model of `clear_list`: every card of the list is DELETEd; the result is
the ids actually deleted (a failed DELETE is logged and the card remains). -/
def clear_list_tr (ok : ApiCall → Bool) (cards : List Card) : List String :=
  cards.filterMap fun card =>
    if ok (ApiCall.deleteCard card.id) then some card.id else none

def cexSource : Card := ⟨"s", "SName", "", none, "L", [], [], [], [], []⟩

def cexMaster : Card := ⟨"m", "MName", "", none, "L", [], ["u1"], [], [], []⟩

def cexEnv : Env := ⟨fun _ => cexSource, fun _ => [], fun _ => ⟨0, "", []⟩⟩

def cexOkNoPut : ApiCall → Bool := fun call =>
  match call with
  | ApiCall.putCard _ => false
  | _ => true

def okAll : ApiCall → Bool := fun _ => true

def humanCard : Card := ⟨"h1", "Human note", "hello", none, "L", [], [], [], [], []⟩

/-- Loads-oracle making every payload falsy (None). -/
def jsonFalsy : String → ExtractOutcome := fun _ => ExtractOutcome.falsy

/-- Loads-oracle agreeing with `json.loads` on canonically encoded payloads:
a payload of the exact shape `create_mirror_metadata` emits parses to its
record; anything else is treated as falsy. -/
def jsonCanon : String → ExtractOutcome := fun s =>
  match parseMeta s.data with
  | some md => ExtractOutcome.record md.source_board md.source_card md.original_desc
  | none => ExtractOutcome.falsy

/-- Exception oracle: no call raises. -/
def throwsNone : ApiCall → Bool := fun _ => false

/-- Exception oracle: every source-card GET raises (a network failure). -/
def throwsGetCard : ApiCall → Bool := fun call =>
  match call with
  | ApiCall.getCard _ => true
  | _ => false

def mCard1 : Card :=
  ⟨"m1", "M1", mirror_card_desc "b0" "s" "x1" "t0", none, "L", [], [], [], [], []⟩

def mCard2 : Card :=
  ⟨"m2", "M2", mirror_card_desc "b0" "s" "x2" "t0", none, "L", [], [], [], [], []⟩

theorem has_completed_label_iff (card : Card) (bl : String → String) :
    has_completed_label card bl = true ↔
      ∃ lid ∈ card.idLabels, pyLower (bl lid) = pyLower COMPLETED_LABEL_NAME := by
  simp [has_completed_label, List.any_eq_true]

theorem get_checklist_progress_eq_ratio (card : Card) (n : String) (cl : ChecklistM)
    (h : card.checklists.find? (fun c => pyLower c.name == pyLower n) = some cl) :
    get_checklist_progress card n = checklist_ratio cl := by
  simp [get_checklist_progress, h, checklist_ratio]

theorem get_checklist_progress_eq_zero (card : Card) (n : String)
    (h : card.checklists.find? (fun c => pyLower c.name == pyLower n) = none) :
    get_checklist_progress card n = 0 := by
  simp [get_checklist_progress, h]

/-- C2: `should_mirror_card` returns true iff the card has no label whose name
case-insensitively equals the configured completed label name and (the card's
list name case-insensitively equals the configured priority list name, or the
completion ratio of the checklist case-insensitively named the configured
progress name is at least the 0.75 threshold); the completed-label exclusion
dominates.  We assume the card has at most one checklist carrying the progress
name (up to case). -/
theorem should_mirror_card_iff (card : Card) (bl : String → String) (list_name : String)
    (huniq : ∀ cl1 ∈ card.checklists, ∀ cl2 ∈ card.checklists,
      pyLower cl1.name = pyLower PROGRESS_CHECKLIST_NAME →
      pyLower cl2.name = pyLower PROGRESS_CHECKLIST_NAME → cl1 = cl2) :
    should_mirror_card card bl list_name = true ↔
      ((∀ lid ∈ card.idLabels, pyLower (bl lid) ≠ pyLower COMPLETED_LABEL_NAME) ∧
       (pyLower list_name = pyLower PRIORITY_LIST_NAME ∨
        ∃ cl ∈ card.checklists, pyLower cl.name = pyLower PROGRESS_CHECKLIST_NAME ∧
          checklist_ratio cl ≥ COMPLETION_THRESHOLD)) := by
  by_cases hc : has_completed_label card bl = true
  · have hex := (has_completed_label_iff card bl).mp hc
    simp only [should_mirror_card, hc, if_true]
    constructor
    · intro h
      exact absurd h (by simp)
    · rintro ⟨hno, -⟩
      obtain ⟨lid, hmem, hlid⟩ := hex
      exact absurd hlid (hno lid hmem)
  · have hno : ∀ lid ∈ card.idLabels, pyLower (bl lid) ≠ pyLower COMPLETED_LABEL_NAME := by
      intro lid hmem heq
      exact hc ((has_completed_label_iff card bl).mpr ⟨lid, hmem, heq⟩)
    have hcb : has_completed_label card bl = false := by
      cases h : has_completed_label card bl
      · rfl
      · exact absurd h hc
    simp only [should_mirror_card, hcb, Bool.false_eq_true, if_false]
    by_cases hl : pyLower list_name == pyLower PRIORITY_LIST_NAME
    · simp only [hl, if_true]
      constructor
      · intro _
        exact ⟨hno, Or.inl (beq_iff_eq.mp hl)⟩
      · intro _
        simp
    · simp only [hl, Bool.false_eq_true, if_false]
      have hlne : pyLower list_name ≠ pyLower PRIORITY_LIST_NAME := by
        intro h
        exact hl (beq_iff_eq.mpr h)
      constructor
      · intro h
        by_cases hp : get_checklist_progress card PROGRESS_CHECKLIST_NAME ≥
            COMPLETION_THRESHOLD
        · refine ⟨hno, Or.inr ?_⟩
          cases hfind : card.checklists.find?
              (fun c => pyLower c.name == pyLower PROGRESS_CHECKLIST_NAME) with
          | none =>
            rw [get_checklist_progress_eq_zero card _ hfind] at hp
            exact absurd hp (by norm_num [COMPLETION_THRESHOLD])
          | some cl =>
            refine ⟨cl, List.mem_of_find?_eq_some hfind, ?_, ?_⟩
            · have h1 := List.find?_some hfind
              simpa using h1
            · rw [← get_checklist_progress_eq_ratio card _ cl hfind]
              exact hp
        · simp [hp] at h
      · rintro ⟨-, hor⟩
        rcases hor with h | ⟨cl, hmem, hname, hratio⟩
        · exact absurd h hlne
        · cases hfind : card.checklists.find?
              (fun c => pyLower c.name == pyLower PROGRESS_CHECKLIST_NAME) with
          | none =>
            rw [List.find?_eq_none] at hfind
            exact absurd (beq_iff_eq.mpr hname) (hfind cl hmem)
          | some cl' =>
            have hcl' : cl' = cl := by
              refine huniq cl' (List.mem_of_find?_eq_some hfind) cl hmem ?_ hname
              have h1 := List.find?_some hfind
              simpa using h1
            have hp : get_checklist_progress card PROGRESS_CHECKLIST_NAME ≥
                COMPLETION_THRESHOLD := by
              rw [get_checklist_progress_eq_ratio card _ cl' hfind, hcl']
              exact hratio
            simp [hp]

/-- C2 witness: a concrete card in the priority list with no labels. -/
theorem should_mirror_card_iff_witness :
    (∀ cl1 ∈ ([] : List ChecklistM), ∀ cl2 ∈ ([] : List ChecklistM),
      pyLower cl1.name = pyLower PROGRESS_CHECKLIST_NAME →
      pyLower cl2.name = pyLower PROGRESS_CHECKLIST_NAME → cl1 = cl2) ∧
    (should_mirror_card ⟨"c1", "Grant A", "", none, "L1", [], [], [], [], []⟩
        (fun _ => "") "Priority IV" = true ↔
      ((∀ lid ∈ ([] : List String),
          pyLower ((fun (_ : String) => "") lid) ≠ pyLower COMPLETED_LABEL_NAME) ∧
       (pyLower "Priority IV" = pyLower PRIORITY_LIST_NAME ∨
        ∃ cl ∈ ([] : List ChecklistM),
          pyLower cl.name = pyLower PROGRESS_CHECKLIST_NAME ∧
          checklist_ratio cl ≥ COMPLETION_THRESHOLD))) :=
  ⟨by simp, should_mirror_card_iff
    ⟨"c1", "Grant A", "", none, "L1", [], [], [], [], []⟩ (fun _ => "") "Priority IV"
    (by simp)⟩

/-- C5: member sync is a full reconciliation — ids on master but not source are
added, ids on source but not master are removed, and (all calls succeeding) the
source card's member set afterwards equals the master card's member set. -/
theorem sync_members_reconciles (m s : Finset String) :
    sync_members_added m s = m \ s ∧ sync_members_removed m s = s \ m ∧
      sync_members_result m s = m := by
  refine ⟨rfl, rfl, ?_⟩
  ext x
  simp only [sync_members_result, sync_members_added, sync_members_removed,
    Finset.mem_sdiff, Finset.mem_union]
  tauto

theorem mem_dedupKeys (x : String) (l : List String) : x ∈ dedupKeys l ↔ x ∈ l := by
  induction l with
  | nil => simp [dedupKeys]
  | cons k rest ih =>
    simp only [dedupKeys, List.mem_cons, List.mem_filter]
    constructor
    · rintro (h | ⟨h, -⟩)
      · exact Or.inl h
      · exact Or.inr (ih.mp h)
    · rintro (h | h)
      · exact Or.inl h
      · by_cases hx : x = k
        · exact Or.inl hx
        · exact Or.inr ⟨ih.mpr h, by simpa using hx⟩

/-- C6 counterexample: a master attachment with URL "u" absent from the
source's URLs is nevertheless not added, because the source has a url-less
attachment whose name "u" occupies the key. -/
theorem sync_attachments_counterexample :
    (some "u" ∈ ([⟨some "u", "a"⟩] : List Attachment).map Attachment.url) ∧
    (∀ a ∈ ([⟨none, "u"⟩] : List Attachment), a.url ≠ some "u") ∧
    sync_attachments_added [⟨some "u", "a"⟩] [⟨none, "u"⟩] = [] := by
  refine ⟨by simp, by simp, ?_⟩
  rfl

/-- C6 (amended): restricted to cards all of whose attachments carry a
non-empty URL, every master attachment whose URL is missing among the source's
URLs is added, and the source's attachment sequence is preserved — the only
effect is appended additions. -/
theorem sync_attachments_spec (master source : List Attachment)
    (hm : ∀ a ∈ master, ∃ u, a.url = some u ∧ u ≠ "")
    (hs : ∀ a ∈ source, ∃ u, a.url = some u ∧ u ≠ "") :
    (∀ u, some u ∈ master.map Attachment.url → (∀ a ∈ source, a.url ≠ some u) →
      u ∈ sync_attachments_added master source) ∧
    sync_attachments_result master source =
      source ++ (sync_attachments_added master source).map (fun u => ⟨some u, u⟩) := by
  refine ⟨?_, rfl⟩
  intro u hu hnot
  obtain ⟨a, ha, haurl⟩ := List.mem_map.mp hu
  obtain ⟨ua, hau, hane⟩ := hm a ha
  have hkey : attKey a = u := by
    simp [attKey, haurl]
  have hukeys : u ∈ master.map attKey := List.mem_map.mpr ⟨a, ha, hkey⟩
  have hdedup : u ∈ dedupKeys (master.map attKey) := (mem_dedupKeys u _).mpr hukeys
  -- the dict lookup succeeds and returns an entry with key u and truthy url
  cases hlk : lookupLastAtt master u with
  | none =>
    rw [lookupLastAtt, List.find?_eq_none] at hlk
    have := hlk a (List.mem_reverse.mpr ha)
    simp [hkey] at this
  | some a' =>
    have ha'm : a' ∈ master := List.mem_reverse.mp (List.mem_of_find?_eq_some hlk)
    have ha'k : attKey a' = u := by
      have h1 := List.find?_some hlk
      simpa using h1
    obtain ⟨u', ha'u, ha'ne⟩ := hm a' ha'm
    have hu'u : u' = u := by
      simp [attKey, ha'u] at ha'k
      exact ha'k
    have htr : truthy_url a' = true := by
      simp [truthy_url, ha'u]
      simpa using ha'ne
    have hcont : (source.map attKey).contains u = false := by
      by_contra hcc
      have hcc' : u ∈ source.map attKey := by
        cases h : (source.map attKey).contains u
        · exact absurd h hcc
        · simpa using h
      obtain ⟨b, hb, hbk⟩ := List.mem_map.mp hcc'
      obtain ⟨ub, hbu, hbne⟩ := hs b hb
      have hub : ub = u := by
        simp [attKey, hbu] at hbk
        exact hbk
      exact hnot b hb (hub ▸ hbu)
    refine List.mem_filterMap.mpr ⟨u, hdedup, ?_⟩
    simp only [hlk, hcont, htr]
    simp [ha'u, hu'u]

/-- C6 witness: one master attachment with a fresh URL, empty source. -/
theorem sync_attachments_spec_witness :
    (∀ a ∈ ([⟨some "u1", "n"⟩] : List Attachment), ∃ u, a.url = some u ∧ u ≠ "") ∧
    (∀ a ∈ ([] : List Attachment), ∃ u, a.url = some u ∧ u ≠ "") ∧
    ((∀ u, some u ∈ ([⟨some "u1", "n"⟩] : List Attachment).map Attachment.url →
        (∀ a ∈ ([] : List Attachment), a.url ≠ some u) →
        u ∈ sync_attachments_added [⟨some "u1", "n"⟩] []) ∧
      sync_attachments_result [⟨some "u1", "n"⟩] [] =
        [] ++ (sync_attachments_added [⟨some "u1", "n"⟩] []).map (fun u => ⟨some u, u⟩)) :=
  ⟨by simp, by simp,
    sync_attachments_spec [⟨some "u1", "n"⟩] [] (by simp) (by simp)⟩

theorem lookupLastItem_mem {items : List CheckItemS} {n : String} {s : CheckItemS}
    (h : lookupLastItem items n = some s) : s ∈ items ∧ s.name = n := by
  refine ⟨List.mem_reverse.mp (List.mem_of_find?_eq_some h), ?_⟩
  have h1 := List.find?_some h
  simpa using h1

theorem lookupLastItem_eq_none {items : List CheckItemS} {n : String} :
    lookupLastItem items n = none ↔ ∀ s ∈ items, s.name ≠ n := by
  rw [lookupLastItem, List.find?_eq_none]
  constructor
  · intro h s hs
    have := h s (List.mem_reverse.mpr hs)
    simpa using this
  · intro h s hs
    have := h s (List.mem_reverse.mp hs)
    simpa using this

theorem lookupLastItem_self {items : List CheckItemS} {s : CheckItemS}
    (hnd : (items.map (fun it => it.name)).Nodup) (hs : s ∈ items) :
    lookupLastItem items s.name = some s := by
  cases h : lookupLastItem items s.name with
  | none =>
    rw [lookupLastItem_eq_none] at h
    exact absurd rfl (h s hs)
  | some s' =>
    obtain ⟨hs', hn'⟩ := lookupLastItem_mem h
    have : s' = s := List.inj_on_of_nodup_map hnd hs' hs hn'
    rw [this]

theorem lookupLastChecklist_mem {cls : List ChecklistS} {n : String} {c : ChecklistS}
    (h : lookupLastChecklist cls n = some c) : c ∈ cls ∧ c.name = n := by
  refine ⟨List.mem_reverse.mp (List.mem_of_find?_eq_some h), ?_⟩
  have h1 := List.find?_some h
  simpa using h1

theorem lookupLastChecklist_eq_none {cls : List ChecklistS} {n : String} :
    lookupLastChecklist cls n = none ↔ ∀ c ∈ cls, c.name ≠ n := by
  rw [lookupLastChecklist, List.find?_eq_none]
  constructor
  · intro h c hc
    have := h c (List.mem_reverse.mpr hc)
    simpa using this
  · intro h c hc
    have := h c (List.mem_reverse.mp hc)
    simpa using this

theorem updateItemState_mem {items : List CheckItemS} {r : CheckItemS}
    (iid : Nat) (st : String) (hr : r ∈ items) :
    (if r.id = iid then ({ r with state := st } : CheckItemS) else r) ∈
      updateItemState items iid st :=
  List.mem_map.mpr ⟨r, hr, rfl⟩

theorem checkItemStep_preserves (dict : List CheckItemS) (acc : List CheckItemS × Nat)
    (m : CheckItemM) (r : CheckItemS) (hr : r ∈ acc.1) :
    ∃ r2 ∈ (checkItemStep dict acc m).1, r2.id = r.id ∧ r2.name = r.name := by
  cases h : lookupLastItem dict m.name with
  | some s =>
    by_cases hd : s.state ≠ m.state
    · refine ⟨if r.id = s.id then { r with state := m.state } else r, ?_, ?_, ?_⟩
      · simp only [checkItemStep, h, if_pos hd]
        exact updateItemState_mem s.id m.state hr
      · by_cases hrs : r.id = s.id <;> simp [hrs]
      · by_cases hrs : r.id = s.id <;> simp [hrs]
    · exact ⟨r, by simp only [checkItemStep, h, if_neg hd]; exact hr, rfl, rfl⟩
  | none =>
    refine ⟨r, ?_, rfl, rfl⟩
    simp only [checkItemStep, h]
    exact List.mem_append_left _ hr

theorem foldl_items_preserves (dict : List CheckItemS) (ms : List CheckItemM) :
    ∀ (acc : List CheckItemS × Nat) (r : CheckItemS), r ∈ acc.1 →
    ∃ r2 ∈ (ms.foldl (checkItemStep dict) acc).1, r2.id = r.id ∧ r2.name = r.name := by
  induction ms with
  | nil =>
    intro acc r hr
    exact ⟨r, hr, rfl, rfl⟩
  | cons m ms ih =>
    intro acc r hr
    obtain ⟨r2, hr2, hid, hname⟩ := checkItemStep_preserves dict acc m r hr
    obtain ⟨r3, hr3, hid3, hname3⟩ := ih (checkItemStep dict acc m) r2 hr2
    exact ⟨r3, by simpa using hr3, hid3.trans hid, hname3.trans hname⟩

theorem checkItemStep_frozen (dict : List CheckItemS) (acc : List CheckItemS × Nat)
    (m : CheckItemM) (r : CheckItemS) (hr : r ∈ acc.1)
    (hno : ∀ s, lookupLastItem dict m.name = some s → s.id ≠ r.id) :
    r ∈ (checkItemStep dict acc m).1 := by
  cases h : lookupLastItem dict m.name with
  | some s =>
    by_cases hd : s.state ≠ m.state
    · simp only [checkItemStep, h, if_pos hd]
      have hrs : ¬ r.id = s.id := fun he => (hno s h) (he.symm)
      have := updateItemState_mem (r := r) s.id m.state hr
      rw [if_neg hrs] at this
      exact this
    · simp only [checkItemStep, h, if_neg hd]
      exact hr
  | none =>
    simp only [checkItemStep, h]
    exact List.mem_append_left _ hr

theorem foldl_items_frozen (dict : List CheckItemS) (ms : List CheckItemM) :
    ∀ (acc : List CheckItemS × Nat) (r : CheckItemS), r ∈ acc.1 →
    (∀ m ∈ ms, ∀ s, lookupLastItem dict m.name = some s → s.id ≠ r.id) →
    r ∈ (ms.foldl (checkItemStep dict) acc).1 := by
  induction ms with
  | nil =>
    intro acc r hr _
    exact hr
  | cons m ms ih =>
    intro acc r hr hno
    have h1 : r ∈ (checkItemStep dict acc m).1 :=
      checkItemStep_frozen dict acc m r hr (hno m (List.mem_cons_self m ms))
    have h2 := ih (checkItemStep dict acc m) r h1
      (fun m' hm' => hno m' (List.mem_cons_of_mem m hm'))
    simpa using h2

theorem checkItemStep_fresh_le (dict : List CheckItemS) (acc : List CheckItemS × Nat)
    (m : CheckItemM) : acc.2 ≤ (checkItemStep dict acc m).2 := by
  cases h : lookupLastItem dict m.name with
  | some s =>
    by_cases hd : s.state ≠ m.state <;> simp [checkItemStep, h, hd]
  | none =>
    simp [checkItemStep, h]

theorem foldl_items_adds (dict : List CheckItemS) (fresh0 : Nat)
    (hdict : ∀ s ∈ dict, s.id < fresh0) (m : CheckItemM)
    (hlk : lookupLastItem dict m.name = none) :
    ∀ (ms : List CheckItemM) (acc : List CheckItemS × Nat), m ∈ ms → fresh0 ≤ acc.2 →
    ∃ r ∈ (ms.foldl (checkItemStep dict) acc).1,
      r.name = m.name ∧
        r.state = (if m.state = "complete" then "complete" else "incomplete") := by
  intro ms
  induction ms with
  | nil =>
    intro acc hm _
    exact absurd hm (List.not_mem_nil m)
  | cons m' ms ih =>
    intro acc hm hf
    rcases List.mem_cons.mp hm with he | hm'
    · subst he
      have hr0 : (⟨acc.2, m.name,
          if m.state = "complete" then "complete" else "incomplete"⟩ : CheckItemS) ∈
          (checkItemStep dict acc m).1 := by
        simp [checkItemStep, hlk]
      have hsurv := foldl_items_frozen dict ms (checkItemStep dict acc m)
        ⟨acc.2, m.name, if m.state = "complete" then "complete" else "incomplete"⟩ hr0
        (fun m'' _ s hs => by
          have hsd := (lookupLastItem_mem hs).1
          have := hdict s hsd
          simp only []
          omega)
      exact ⟨_, by simpa using hsurv, rfl, rfl⟩
    · have := ih (checkItemStep dict acc m') hm'
        (le_trans hf (checkItemStep_fresh_le dict acc m'))
      simpa using this

theorem foldl_items_updates (dict : List CheckItemS)
    (hids : (dict.map (fun s => s.id)).Nodup) (m : CheckItemM) (s : CheckItemS)
    (hlk : lookupLastItem dict m.name = some s) (hdiff : s.state ≠ m.state) :
    ∀ (ms : List CheckItemM) (acc : List CheckItemS × Nat), m ∈ ms →
    (∀ m' ∈ ms, m'.name = m.name → m' = m) →
    (∃ a ∈ acc.1, a.id = s.id ∧ a.name = s.name) →
    ∃ r ∈ (ms.foldl (checkItemStep dict) acc).1,
      r.id = s.id ∧ r.name = s.name ∧ r.state = m.state := by
  have hsname : s.name = m.name := (lookupLastItem_mem hlk).2
  have hsdict : s ∈ dict := (lookupLastItem_mem hlk).1
  intro ms
  induction ms with
  | nil =>
    intro acc hm _ _
    exact absurd hm (List.not_mem_nil m)
  | cons m' ms ih =>
    intro acc hm huniq hinv
    rcases List.mem_cons.mp hm with he | hm'
    · subst he
      obtain ⟨a, ha, haid, haname⟩ := hinv
      have hr1 : ({ a with state := m.state } : CheckItemS) ∈
          (checkItemStep dict acc m).1 := by
        simp only [checkItemStep, hlk, if_pos hdiff]
        have := updateItemState_mem (r := a) s.id m.state ha
        rw [if_pos haid] at this
        exact this
      by_cases hmm : m ∈ ms
      · have := ih (checkItemStep dict acc m) hmm
          (fun m'' hm'' => huniq m'' (List.mem_cons_of_mem m hm''))
          ⟨{ a with state := m.state }, hr1, haid, haname⟩
        simpa using this
      · have hsurv := foldl_items_frozen dict ms (checkItemStep dict acc m)
          { a with state := m.state } hr1
          (fun m'' hm'' s'' hs'' => by
            have hname'' : m''.name ≠ m.name := fun he => by
              exact hmm (huniq m'' (List.mem_cons_of_mem m hm'') he ▸ hm'')
            have hs''d := (lookupLastItem_mem hs'').1
            have hs''n := (lookupLastItem_mem hs'').2
            have hne : s'' ≠ s := fun he => by
              rw [he, hsname] at hs''n
              exact hname'' hs''n.symm
            have : s''.id ≠ s.id := fun he =>
              hne (List.inj_on_of_nodup_map hids hs''d hsdict he)
            simpa [haid] using this)
        refine ⟨{ a with state := m.state }, by simpa using hsurv, ?_, ?_, rfl⟩
        · simpa using haid
        · simpa using haname
    · have hm'm : m ∈ ms := hm'
      obtain ⟨a, ha, haid, haname⟩ := hinv
      obtain ⟨a2, ha2, ha2id, ha2name⟩ := checkItemStep_preserves dict acc m' a ha
      have := ih (checkItemStep dict acc m') hm'm
        (fun m'' hm'' => huniq m'' (List.mem_cons_of_mem m' hm''))
        ⟨a2, ha2, ha2id.trans haid, ha2name.trans haname⟩
      simpa using this

/-- C4: for a checklist present on both cards, items are propagated
one-directionally — master-only items are added with the master's completion
state, items on both with differing state have the source item's state set to
the master's, source-only items are left untouched, and no source item is ever
deleted.  Stated for well-formed inputs: unique item names on each side,
unique source item ids, fresh ids above all existing ids, and master item
states drawn from "complete"/"incomplete". -/
theorem sync_check_items_spec (ms : List CheckItemM) (items0 : List CheckItemS)
    (fresh : Nat)
    (hsn : (items0.map (fun s => s.name)).Nodup)
    (hmn : (ms.map (fun m => m.name)).Nodup)
    (hid : (items0.map (fun s => s.id)).Nodup)
    (hfresh : ∀ s ∈ items0, s.id < fresh)
    (hstates : ∀ m ∈ ms, m.state = "complete" ∨ m.state = "incomplete") :
    (∀ m ∈ ms, (∀ s ∈ items0, s.name ≠ m.name) →
      ∃ r ∈ (syncCheckItems ms items0 fresh).1, r.name = m.name ∧ r.state = m.state) ∧
    (∀ m ∈ ms, ∀ s ∈ items0, s.name = m.name → s.state ≠ m.state →
      ∃ r ∈ (syncCheckItems ms items0 fresh).1,
        r.id = s.id ∧ r.name = s.name ∧ r.state = m.state) ∧
    (∀ s ∈ items0, (∀ m ∈ ms, m.name ≠ s.name) →
      s ∈ (syncCheckItems ms items0 fresh).1) ∧
    (∀ s ∈ items0, ∃ r ∈ (syncCheckItems ms items0 fresh).1,
      r.id = s.id ∧ r.name = s.name) := by
  simp only [syncCheckItems]
  refine ⟨?_, ?_, ?_, ?_⟩
  · intro m hm hnone
    have hlk : lookupLastItem items0 m.name = none := lookupLastItem_eq_none.mpr hnone
    obtain ⟨r, hr, hname, hstate⟩ := foldl_items_adds items0 fresh hfresh m hlk ms
      (items0, fresh) hm (le_refl fresh)
    refine ⟨r, hr, hname, ?_⟩
    rcases hstates m hm with h | h <;> simp [hstate, h]
  · intro m hm s hs hname hdiff
    have hlk : lookupLastItem items0 m.name = some s := by
      rw [← hname]
      exact lookupLastItem_self hsn hs
    exact foldl_items_updates items0 hid m s hlk hdiff ms (items0, fresh) hm
      (fun m' hm' he => List.inj_on_of_nodup_map hmn hm' hm he) ⟨s, hs, rfl, rfl⟩
  · intro s hs hnom
    exact foldl_items_frozen items0 ms (items0, fresh) s hs
      (fun m hm s' hlk' he => by
        have h1 := (lookupLastItem_mem hlk').2
        have h2 := (lookupLastItem_mem hlk').1
        have hss : s' = s := List.inj_on_of_nodup_map hid h2 hs he
        rw [hss] at h1
        exact hnom m hm h1.symm)
  · intro s hs
    exact foldl_items_preserves items0 ms (items0, fresh) s hs

/-- C4 witness: one master item to add, one source item untouched. -/
theorem sync_check_items_spec_witness :
    (([(⟨1, "b", "incomplete"⟩ : CheckItemS)].map (fun s => s.name)).Nodup ∧
     (([(⟨"a", "complete"⟩ : CheckItemM)].map (fun m => m.name)).Nodup) ∧
     (([(⟨1, "b", "incomplete"⟩ : CheckItemS)].map (fun s => s.id)).Nodup) ∧
     (∀ s ∈ [(⟨1, "b", "incomplete"⟩ : CheckItemS)], s.id < 10) ∧
     (∀ m ∈ [(⟨"a", "complete"⟩ : CheckItemM)],
        m.state = "complete" ∨ m.state = "incomplete")) ∧
    ((∀ m ∈ [(⟨"a", "complete"⟩ : CheckItemM)],
        (∀ s ∈ [(⟨1, "b", "incomplete"⟩ : CheckItemS)], s.name ≠ m.name) →
        ∃ r ∈ (syncCheckItems [⟨"a", "complete"⟩] [⟨1, "b", "incomplete"⟩] 10).1,
          r.name = m.name ∧ r.state = m.state) ∧
     (∀ m ∈ [(⟨"a", "complete"⟩ : CheckItemM)],
        ∀ s ∈ [(⟨1, "b", "incomplete"⟩ : CheckItemS)], s.name = m.name →
        s.state ≠ m.state →
        ∃ r ∈ (syncCheckItems [⟨"a", "complete"⟩] [⟨1, "b", "incomplete"⟩] 10).1,
          r.id = s.id ∧ r.name = s.name ∧ r.state = m.state) ∧
     (∀ s ∈ [(⟨1, "b", "incomplete"⟩ : CheckItemS)],
        (∀ m ∈ [(⟨"a", "complete"⟩ : CheckItemM)], m.name ≠ s.name) →
        s ∈ (syncCheckItems [⟨"a", "complete"⟩] [⟨1, "b", "incomplete"⟩] 10).1) ∧
     (∀ s ∈ [(⟨1, "b", "incomplete"⟩ : CheckItemS)],
        ∃ r ∈ (syncCheckItems [⟨"a", "complete"⟩] [⟨1, "b", "incomplete"⟩] 10).1,
          r.id = s.id ∧ r.name = s.name)) :=
  ⟨⟨by decide, by decide, by decide, by decide, by decide⟩,
    sync_check_items_spec [⟨"a", "complete"⟩] [⟨1, "b", "incomplete"⟩] 10
      (by decide) (by decide) (by decide) (by decide) (by decide)⟩

theorem checklistStep_proj (src : List ChecklistS) (acc : List ChecklistS × Nat)
    (mcl : ChecklistM) :
    (checklistStep src acc mcl).1.map (fun cl => (cl.id, cl.name)) =
      acc.1.map (fun cl => (cl.id, cl.name)) := by
  cases h : lookupLastChecklist src mcl.name with
  | some scl0 =>
    cases h2 : acc.1.find? (fun cl => cl.id == scl0.id) with
    | some cur =>
      simp only [checklistStep, h, h2, List.map_map]
      apply List.map_congr_left
      intro cl _
      by_cases hc : cl.id = scl0.id <;> simp [hc]
    | none =>
      simp [checklistStep, h, h2]
  | none =>
    simp [checklistStep, h]

theorem sync_checklists_proj (src : List ChecklistS) (ms : List ChecklistM) :
    ∀ acc : List ChecklistS × Nat,
      (ms.foldl (checklistStep src) acc).1.map (fun cl => (cl.id, cl.name)) =
        acc.1.map (fun cl => (cl.id, cl.name)) := by
  induction ms with
  | nil =>
    intro acc
    rfl
  | cons m ms ih =>
    intro acc
    rw [List.foldl_cons, ih (checklistStep src acc m), checklistStep_proj]

/-- C9: the checklist-sync step never creates or removes a checklist on the
source card — the result has exactly the source's checklist ids and names —
and a master checklist whose name matches no source checklist is skipped
outright, contributing nothing. -/
theorem sync_checklists_skips (ms : List ChecklistM) (src : List ChecklistS)
    (fresh : Nat) (mcl : ChecklistM) (h : ∀ scl ∈ src, scl.name ≠ mcl.name) :
    ((sync_checklists ms src fresh).1.map (fun cl => (cl.id, cl.name)) =
      src.map (fun cl => (cl.id, cl.name))) ∧
    sync_checklists (mcl :: ms) src fresh = sync_checklists ms src fresh := by
  constructor
  · exact sync_checklists_proj src ms (src, fresh)
  · have hlk : lookupLastChecklist src mcl.name = none :=
      lookupLastChecklist_eq_none.mpr h
    simp only [sync_checklists, List.foldl_cons, checklistStep, hlk]

/-- C9 witness: a master checklist named "X" against a source with only "y". -/
theorem sync_checklists_skips_witness :
    (∀ scl ∈ [(⟨1, "y", []⟩ : ChecklistS)], scl.name ≠ ("X" : String)) ∧
    (((sync_checklists [] [⟨1, "y", []⟩] 5).1.map (fun cl => (cl.id, cl.name)) =
      [(⟨1, "y", []⟩ : ChecklistS)].map (fun cl => (cl.id, cl.name))) ∧
     sync_checklists [⟨"X", []⟩] [⟨1, "y", []⟩] 5 = sync_checklists [] [⟨1, "y", []⟩] 5) :=
  ⟨by decide, sync_checklists_skips [] [⟨1, "y", []⟩] 5 ⟨"X", []⟩ (by decide)⟩

/-- C10: reverse-sync checklist and item matching is exact and case-sensitive:
a master checklist "TODO" is unmatched against a source checklist "todo" and
ignored; a master item "Task" is unmatched against a source item "task" and
added as a new item instead of updating it; by contrast the eligibility
evaluator's checklist lookup is case-insensitive — a checklist named
"IN-PROGRESS" is found under the configured name "In-Progress". -/
theorem sync_matching_case_sensitive :
    sync_checklists [⟨"TODO", [⟨"Task", "complete"⟩]⟩]
        [⟨1, "todo", [⟨10, "task", "incomplete"⟩]⟩] 100 =
      ([⟨1, "todo", [⟨10, "task", "incomplete"⟩]⟩], 100) ∧
    syncCheckItems [⟨"Task", "complete"⟩] [⟨10, "task", "incomplete"⟩] 100 =
      ([⟨10, "task", "incomplete"⟩, ⟨100, "Task", "complete"⟩], 101) ∧
    get_checklist_progress
        ⟨"c", "n", "", none, "L", [], [], [], [⟨"IN-PROGRESS", [⟨"x", "complete"⟩]⟩], []⟩
        PROGRESS_CHECKLIST_NAME = 1 := by
  refine ⟨by decide, by decide, ?_⟩
  rw [get_checklist_progress_eq_ratio _ _ ⟨"IN-PROGRESS", [⟨"x", "complete"⟩]⟩ (by decide)]
  have h1 : (([(⟨"x", "complete"⟩ : CheckItemM)]).filter
      (fun it => it.state == "complete")) = [⟨"x", "complete"⟩] := by decide
  rw [checklist_ratio]
  norm_num [h1]

theorem stripPre_append (p r : List Char) : stripPre p (p ++ r) = some r := by
  induction p with
  | nil => rfl
  | cons c ps ih => simp [stripPre, ih]

theorem stripPre_eq_some {p l r : List Char} (h : stripPre p l = some r) : l = p ++ r := by
  induction p generalizing l with
  | nil =>
    simp only [stripPre] at h
    simp only [Option.some.injEq] at h
    simp [h]
  | cons c ps ih =>
    cases l with
    | nil => simp [stripPre] at h
    | cons x xs =>
      simp only [stripPre] at h
      by_cases hx : x = c
      · rw [if_pos hx] at h
        subst hx
        simp [ih h]
      · rw [if_neg hx] at h
        exact absurd h (by simp)

theorem char_toNat_valid (c : Char) :
    c.toNat < 55296 ∨ (57344 ≤ c.toNat ∧ c.toNat < 1114112) := by
  have h := c.valid
  have h2 : c.toNat = c.val.toNat := rfl
  rcases h with h | h
  · left
    omega
  · right
    omega

theorem hexVal_hexDigitChar (n : Nat) (h : n < 16) :
    hexVal (hexDigitChar n) = some n := by
  interval_cases n <;> decide

theorem hex4_toHex4 (n : Nat) (h : n < 65536) :
    hex4 (hexDigitChar (n / 4096 % 16)) (hexDigitChar (n / 256 % 16))
      (hexDigitChar (n / 16 % 16)) (hexDigitChar (n % 16)) = some n := by
  have e1 := hexVal_hexDigitChar (n / 4096 % 16) (Nat.mod_lt _ (by norm_num))
  have e2 := hexVal_hexDigitChar (n / 256 % 16) (Nat.mod_lt _ (by norm_num))
  have e3 := hexVal_hexDigitChar (n / 16 % 16) (Nat.mod_lt _ (by norm_num))
  have e4 := hexVal_hexDigitChar (n % 16) (Nat.mod_lt _ (by norm_num))
  simp only [hex4, e1, e2, e3, e4]
  congr 1
  omega

theorem parse_char_step (c : Char) (tail : List Char) (f : Nat) :
    parseStrBodyF (f + 1) (escChar c ++ tail) = consR c (parseStrBodyF f tail) := by
  by_cases h1 : c = '"'
  · subst h1
    rfl
  by_cases h2 : c = '\\'
  · subst h2
    rfl
  by_cases h3 : c = '\n'
  · subst h3
    rfl
  by_cases h4 : c = '\r'
  · subst h4
    rfl
  by_cases h5 : c = '\t'
  · subst h5
    rfl
  by_cases h6 : c.toNat = 8
  · have hc : Char.ofNat 8 = c := by rw [← h6, Char.ofNat_toNat]
    have he : escChar c = ['\\', 'b'] := by
      simp only [escChar, if_neg h1, if_neg h2, if_neg h3, if_neg h4, if_neg h5, if_pos h6]
    rw [he, ← hc]
    rfl
  by_cases h7 : c.toNat = 12
  · have hc : Char.ofNat 12 = c := by rw [← h7, Char.ofNat_toNat]
    have he : escChar c = ['\\', 'f'] := by
      simp only [escChar, if_neg h1, if_neg h2, if_neg h3, if_neg h4, if_neg h5,
        if_neg h6, if_pos h7]
    rw [he, ← hc]
    rfl
  by_cases h8 : 32 ≤ c.toNat ∧ c.toNat ≤ 126
  · have he : escChar c = [c] := by
      simp only [escChar, if_neg h1, if_neg h2, if_neg h3, if_neg h4, if_neg h5,
        if_neg h6, if_neg h7, if_pos h8]
    rw [he]
    show parseStrBodyF (f + 1) (c :: tail) = consR c (parseStrBodyF f tail)
    simp only [parseStrBodyF]
    rw [if_neg h1, if_neg h2, if_neg (show ¬ c.toNat < 32 by omega)]
  by_cases h9 : c.toNat < 65536
  · have hval : c.toNat < 55296 ∨ 57344 ≤ c.toNat := by
      rcases char_toNat_valid c with h | h
      · exact Or.inl h
      · exact Or.inr h.1
    have he : escChar c = '\\' :: 'u' :: toHex4 c.toNat := by
      simp only [escChar, if_neg h1, if_neg h2, if_neg h3, if_neg h4, if_neg h5,
        if_neg h6, if_neg h7, if_neg h8, if_pos h9]
    have hd : decodeEsc ('u' :: (toHex4 c.toNat ++ tail)) = some (c, tail) := by
      have hu : decodeU (toHex4 c.toNat ++ tail) = some (c, tail) := by
        rw [toHex4]
        simp only [List.cons_append, List.nil_append]
        simp only [decodeU]
        rw [hex4_toHex4 c.toNat h9]
        simp only [decodeU4]
        rw [if_pos hval, Char.ofNat_toNat]
      simp only [decodeEsc]
      rw [if_neg (by decide), if_neg (by decide), if_neg (by decide), if_neg (by decide),
        if_neg (by decide), if_neg (by decide), if_neg (by decide), if_neg (by decide)]
      simp only [if_true]
      exact hu
    rw [he]
    show parseStrBodyF (f + 1) ('\\' :: ('u' :: (toHex4 c.toNat ++ tail))) =
      consR c (parseStrBodyF f tail)
    simp only [parseStrBodyF]
    rw [if_neg (by decide)]
    simp only [if_true]
    rw [hd, Option.some_bind]
  · have hb : 65536 ≤ c.toNat := by omega
    have hv : c.toNat < 1114112 := by
      rcases char_toNat_valid c with h | h
      · omega
      · omega
    have hqlt : (c.toNat - 65536) / 1024 < 1024 := by omega
    have hrlt : (c.toNat - 65536) % 1024 < 1024 := Nat.mod_lt _ (by norm_num)
    have he : escChar c =
        ('\\' :: 'u' :: toHex4 (55296 + (c.toNat - 65536) / 1024)) ++
          ('\\' :: 'u' :: toHex4 (56320 + (c.toNat - 65536) % 1024)) := by
      simp only [escChar, if_neg h1, if_neg h2, if_neg h3, if_neg h4, if_neg h5,
        if_neg h6, if_neg h7, if_neg h8, if_neg h9]
    have hd : decodeEsc ('u' :: (toHex4 (55296 + (c.toNat - 65536) / 1024) ++
        ('\\' :: 'u' :: (toHex4 (56320 + (c.toNat - 65536) % 1024) ++ tail)))) =
        some (c, tail) := by
      have hu : decodeU (toHex4 (55296 + (c.toNat - 65536) / 1024) ++
          ('\\' :: 'u' :: (toHex4 (56320 + (c.toNat - 65536) % 1024) ++ tail))) =
          some (c, tail) := by
        rw [toHex4, toHex4]
        simp only [List.cons_append, List.nil_append]
        simp only [decodeU]
        rw [hex4_toHex4 (55296 + (c.toNat - 65536) / 1024) (by omega)]
        simp only [decodeU4]
        rw [if_neg (by omega), if_pos (by omega)]
        simp only [decodePair]
        rw [if_pos (by decide)]
        rw [hex4_toHex4 (56320 + (c.toNat - 65536) % 1024) (by omega)]
        simp only [decodeLow]
        rw [if_pos ⟨by omega, by omega⟩]
        have harith : 65536 + (55296 + (c.toNat - 65536) / 1024 - 55296) * 1024 +
            (56320 + (c.toNat - 65536) % 1024 - 56320) = c.toNat := by omega
        rw [harith, Char.ofNat_toNat]
      simp only [decodeEsc]
      rw [if_neg (by decide), if_neg (by decide), if_neg (by decide), if_neg (by decide),
        if_neg (by decide), if_neg (by decide), if_neg (by decide), if_neg (by decide)]
      simp only [if_true]
      exact hu
    rw [he]
    show parseStrBodyF (f + 1) ('\\' :: ('u' :: (toHex4 (55296 + (c.toNat - 65536) / 1024) ++
        ('\\' :: 'u' :: (toHex4 (56320 + (c.toNat - 65536) % 1024) ++ tail))))) =
      consR c (parseStrBodyF f tail)
    simp only [parseStrBodyF]
    rw [if_neg (by decide)]
    simp only [if_true]
    rw [hd, Option.some_bind]

theorem parse_escape_full (s : List Char) :
    ∀ (f : Nat) (rest : List Char), s.length + 1 ≤ f →
      parseStrBodyF f (escapeL s ++ '"' :: rest) = some (s, rest) := by
  induction s with
  | nil =>
    intro f rest hf
    cases f with
    | zero => exact absurd hf (by omega)
    | succ f' => rfl
  | cons c s ih =>
    intro f rest hf
    cases f with
    | zero => exact absurd hf (by omega)
    | succ f' =>
      have hsplit : escapeL (c :: s) ++ '"' :: rest =
          escChar c ++ (escapeL s ++ '"' :: rest) := by
        simp [escapeL, List.append_assoc]
      rw [hsplit, parse_char_step, ih f' rest (by simp at hf; omega)]
      rfl

theorem escChar_length_pos (c : Char) : 1 ≤ (escChar c).length := by
  rw [escChar]
  split_ifs <;> simp

theorem escapeL_length (s : List Char) : s.length ≤ (escapeL s).length := by
  induction s with
  | nil => simp [escapeL]
  | cons c s ih =>
    have := escChar_length_pos c
    simp only [escapeL, List.length_append, List.length_cons]
    omega

theorem parseStrBody_escape (s rest : List Char) :
    parseStrBody (escapeL s ++ '"' :: rest) = some (s, rest) := by
  rw [parseStrBody]
  apply parse_escape_full
  have h1 := escapeL_length s
  simp only [List.length_append, List.length_cons]
  omega

theorem parseMeta_dumps (b c d t : List Char) :
    parseMeta (dumpsChars b c d t) =
      some ⟨String.mk b, String.mk c, String.mk d, String.mk t⟩ := by
  rw [dumpsChars, parseMeta]
  rw [stripPre_append]
  simp only [Option.some_bind]
  rw [parseStrBody_escape]
  simp only [Option.some_bind]
  rw [stripPre_append]
  simp only [Option.some_bind]
  rw [parseStrBody_escape]
  simp only [Option.some_bind]
  rw [stripPre_append]
  simp only [Option.some_bind]
  rw [parseStrBody_escape]
  simp only [Option.some_bind]
  rw [stripPre_append]
  simp only [Option.some_bind]
  rw [parseStrBody_escape]
  simp only [Option.some_bind]
  simp only [if_true]

theorem hasPre_append_self (p r : List Char) : hasPre p (p ++ r) = true := by
  rw [hasPre, stripPre_append]
  rfl

theorem hasPre_of_eq_true {p l : List Char} (h : hasPre p l = true) :
    ∃ r, l = p ++ r := by
  rw [hasPre] at h
  cases hs : stripPre p l with
  | none =>
    rw [hs] at h
    exact absurd h (by simp)
  | some r => exact ⟨r, stripPre_eq_some hs⟩

theorem hasPre_split {p l1 l2 : List Char} (h : hasPre p (l1 ++ l2) = true) :
    hasPre p l1 = true ∨ ∃ p2, p = l1 ++ p2 ∧ hasPre p2 l2 = true := by
  induction l1 generalizing p with
  | nil => exact Or.inr ⟨p, rfl, by simpa using h⟩
  | cons y l1 ih =>
    cases p with
    | nil =>
      left
      rw [hasPre, stripPre]
      rfl
    | cons q ps =>
      rw [List.cons_append] at h
      rw [hasPre, stripPre] at h
      by_cases hy : y = q
      · rw [if_pos hy] at h
        rcases ih (p := ps) (by rw [hasPre]; exact h) with h1 | ⟨p2, hp2, hh⟩
        · left
          rw [hasPre, stripPre, if_pos hy]
          rw [hasPre] at h1
          exact h1
        · right
          refine ⟨p2, ?_, hh⟩
          rw [List.cons_append, ← hy, hp2]
      · rw [if_neg hy] at h
        exact absurd h (by simp)

theorem findSub_cons_eq (needle : List Char) (x : Char) (t : List Char) :
    findSub needle (x :: t) =
      if hasPre needle (x :: t) then some 0 else (findSub needle t).map (· + 1) := rfl

theorem findSub_none_decompose {needle : List Char} {x : Char} {t : List Char}
    (h : findSub needle (x :: t) = none) :
    hasPre needle (x :: t) = false ∧ findSub needle t = none := by
  rw [findSub_cons_eq] at h
  by_cases hp : hasPre needle (x :: t) = true
  · rw [if_pos hp] at h
    exact absurd h (by simp)
  · have hp' : hasPre needle (x :: t) = false := by
      cases hq : hasPre needle (x :: t)
      · rfl
      · exact absurd hq hp
    rw [if_neg (by simp [hp'])] at h
    refine ⟨hp', ?_⟩
    cases hq : findSub needle t with
    | none => rfl
    | some j =>
      rw [hq] at h
      exact absurd h (by simp)

theorem findSub_marker (needle : List Char) (hne : needle ≠ [])
    (hnl : ∀ x ∈ needle, x ≠ '\n') :
    ∀ (d tail : List Char), findSub needle d = none →
      findSub needle (d ++ '\n' :: '\n' :: (needle ++ tail)) = some (d.length + 2) := by
  intro d
  induction d with
  | nil =>
    intro tail _
    obtain ⟨n0, nrest, hn⟩ : ∃ n0 nrest, needle = n0 :: nrest := by
      cases needle with
      | nil => exact absurd rfl hne
      | cons a b => exact ⟨a, b, rfl⟩
    have hn0 : n0 ≠ '\n' := by
      subst hn
      exact hnl n0 (List.mem_cons_self _ _)
    have hp1 : hasPre needle ('\n' :: ('\n' :: (needle ++ tail))) = false := by
      subst hn
      rw [hasPre, stripPre, if_neg (fun he => hn0 he.symm)]
      rfl
    have hp2 : hasPre needle ('\n' :: (needle ++ tail)) = false := by
      subst hn
      rw [hasPre, stripPre, if_neg (fun he => hn0 he.symm)]
      rfl
    have hp3 : findSub needle (needle ++ tail) = some 0 := by
      rw [hn, List.cons_append, findSub_cons_eq, ← List.cons_append, ← hn,
        if_pos (hasPre_append_self needle tail)]
    rw [List.nil_append, findSub_cons_eq, if_neg (by simp [hp1]), findSub_cons_eq,
      if_neg (by simp [hp2]), hp3]
    rfl
  | cons x d ih =>
    intro tail hfind
    obtain ⟨hpx, hfd⟩ := findSub_none_decompose hfind
    have hnp : hasPre needle (x :: (d ++ '\n' :: '\n' :: (needle ++ tail))) = false := by
      by_contra hcon
      have hcon' : hasPre needle ((x :: d) ++ '\n' :: '\n' :: (needle ++ tail)) = true := by
        cases hq : hasPre needle ((x :: d) ++ '\n' :: '\n' :: (needle ++ tail))
        · rw [List.cons_append] at hq
          exact absurd hq hcon
        · rfl
      rcases hasPre_split hcon' with h1 | ⟨p2, hp2, hh⟩
      · rw [h1] at hpx
        exact absurd hpx (by simp)
      · cases p2 with
        | nil =>
          rw [List.append_nil] at hp2
          have : hasPre needle (x :: d) = true := by
            rw [hp2]
            have := hasPre_append_self (x :: d) []
            rwa [List.append_nil] at this
          rw [this] at hpx
          exact absurd hpx (by simp)
        | cons q p2' =>
          obtain ⟨r, hr⟩ := hasPre_of_eq_true hh
          have hq : '\n' = q := by
            have h0 := congrArg (fun l => l.head?) hr
            simpa using h0
          have hqmem : q ∈ needle := by
            rw [hp2]
            exact List.mem_append_right _ (List.mem_cons_self _ _)
          exact hnl q hqmem hq.symm
    rw [List.cons_append, findSub_cons_eq, if_neg (by simp [hnp]), ih tail hfd]
    have : d.length + 2 + 1 = d.length + 1 + 2 := by omega
    simp [this]

theorem findSub_single_none {ch : Char} {l : List Char} (h : ∀ x ∈ l, x ≠ ch) :
    findSub [ch] l = none := by
  induction l with
  | nil => rfl
  | cons x t ih =>
    have hx : hasPre [ch] (x :: t) = false := by
      rw [hasPre, stripPre, if_neg (fun he => h x (List.mem_cons_self _ _) he)]
      rfl
    rw [findSub_cons_eq, if_neg (by simp [hx]),
      ih (fun y hy => h y (List.mem_cons_of_mem _ hy))]
    rfl

theorem hexDigitChar_ne_newline (n : Nat) (h : n < 16) : hexDigitChar n ≠ '\n' := by
  interval_cases n <;> decide

theorem toHex4_no_newline (n : Nat) : ∀ x ∈ toHex4 n, x ≠ '\n' := by
  intro x hx
  rw [toHex4] at hx
  simp only [List.mem_cons, List.not_mem_nil, or_false] at hx
  rcases hx with rfl | rfl | rfl | rfl <;>
    exact hexDigitChar_ne_newline _ (Nat.mod_lt _ (by norm_num))

theorem noNL_append {l1 l2 : List Char} (h1 : ∀ x ∈ l1, x ≠ '\n')
    (h2 : ∀ x ∈ l2, x ≠ '\n') : ∀ x ∈ l1 ++ l2, x ≠ '\n' := by
  intro x hx
  rcases List.mem_append.mp hx with h | h
  · exact h1 x h
  · exact h2 x h

theorem noNL_cons {c : Char} {l : List Char} (hc : c ≠ '\n')
    (h : ∀ x ∈ l, x ≠ '\n') : ∀ x ∈ c :: l, x ≠ '\n' := by
  intro x hx
  rcases List.mem_cons.mp hx with rfl | h'
  · exact hc
  · exact h x h'

theorem escChar_no_newline (c : Char) : ∀ x ∈ escChar c, x ≠ '\n' := by
  rw [escChar]
  split_ifs with h1 h2 h3 h4 h5 h6 h7 h8 h9
  · intro x hx
    simp only [List.mem_cons, List.not_mem_nil, or_false] at hx
    rcases hx with rfl | rfl <;> decide
  · intro x hx
    simp only [List.mem_cons, List.not_mem_nil, or_false] at hx
    rcases hx with rfl | rfl <;> decide
  · subst h3
    intro x hx
    simp only [List.mem_cons, List.not_mem_nil, or_false] at hx
    rcases hx with rfl | rfl <;> decide
  · intro x hx
    simp only [List.mem_cons, List.not_mem_nil, or_false] at hx
    rcases hx with rfl | rfl <;> decide
  · intro x hx
    simp only [List.mem_cons, List.not_mem_nil, or_false] at hx
    rcases hx with rfl | rfl <;> decide
  · intro x hx
    simp only [List.mem_cons, List.not_mem_nil, or_false] at hx
    rcases hx with rfl | rfl <;> decide
  · intro x hx
    simp only [List.mem_cons, List.not_mem_nil, or_false] at hx
    rcases hx with rfl | rfl <;> decide
  · intro x hx
    simp only [List.mem_cons, List.not_mem_nil, or_false] at hx
    rcases hx with rfl
    intro he
    have h10 := congrArg Char.toNat he
    have h11 : Char.toNat '\n' = 10 := by decide
    omega
  · exact noNL_cons (by decide) (noNL_cons (by decide) (toHex4_no_newline _))
  · exact noNL_append
      (noNL_cons (by decide) (noNL_cons (by decide) (toHex4_no_newline _)))
      (noNL_cons (by decide) (noNL_cons (by decide) (toHex4_no_newline _)))

theorem escapeL_no_newline (s : List Char) : ∀ x ∈ escapeL s, x ≠ '\n' := by
  induction s with
  | nil => simp [escapeL]
  | cons c s ih =>
    rw [escapeL]
    exact noNL_append (escChar_no_newline c) ih

theorem dumpsChars_no_newline (b c d t : List Char) :
    ∀ x ∈ dumpsChars b c d t, x ≠ '\n' := by
  rw [dumpsChars]
  apply noNL_append (by decide)
  apply noNL_append (escapeL_no_newline b)
  apply noNL_cons (by decide)
  apply noNL_append (by decide)
  apply noNL_append (escapeL_no_newline c)
  apply noNL_cons (by decide)
  apply noNL_append (by decide)
  apply noNL_append (escapeL_no_newline d)
  apply noNL_cons (by decide)
  apply noNL_append (by decide)
  apply noNL_append (escapeL_no_newline t)
  apply noNL_cons (by decide)
  apply noNL_cons (by decide)
  simp

theorem dropWhile_append_left (p : Char → Bool) (l1 l2 : List Char) :
    List.dropWhile p (l1 ++ l2) =
      if (List.dropWhile p l1).isEmpty then List.dropWhile p l2
      else List.dropWhile p l1 ++ l2 := by
  induction l1 with
  | nil => simp
  | cons a t ih =>
    by_cases hpa : p a
    · simp only [List.cons_append, List.dropWhile_cons, hpa, if_true]
      exact ih
    · simp [List.dropWhile_cons, hpa]

theorem pyStrip_append_ws (l : List Char) (w : Char) (hw : isPySpace w = true) :
    pyStrip (l ++ [w]) = pyStrip l := by
  rw [pyStrip, pyStrip, dropWhile_append_left]
  cases hdw : List.dropWhile isPySpace l with
  | nil => simp [hw]
  | cons a t =>
    have hna : isPySpace a = false := by
      have := List.head?_dropWhile_not isPySpace l
      rw [hdw] at this
      simpa using this
    simp only [List.isEmpty_cons, if_false, Bool.false_eq_true]
    rw [List.reverse_append]
    simp [hw]

theorem pyStrip_braces (m : List Char) :
    pyStrip (LBRACE :: (m ++ [RBRACE])) = LBRACE :: (m ++ [RBRACE]) := by
  have h1 : isPySpace LBRACE = false := by decide
  have h2 : isPySpace RBRACE = false := by decide
  rw [pyStrip]
  rw [List.dropWhile_cons, h1]
  simp only [Bool.false_eq_true, if_false]
  rw [List.reverse_cons, List.reverse_append]
  simp only [List.reverse_cons, List.reverse_nil, List.nil_append, List.cons_append]
  rw [List.dropWhile_cons, h2]
  simp only [Bool.false_eq_true, if_false]
  simp

theorem dumpsChars_shape (b c d t : List Char) :
    dumpsChars b c d t = LBRACE :: (dumpsMid b c d t ++ [RBRACE]) := by
  have hK : K1q = LBRACE :: K1tail := by decide
  rw [dumpsChars, dumpsMid, hK]
  simp [List.append_assoc]

theorem pyStrip_dumpsChars (b c d t : List Char) :
    pyStrip (dumpsChars b c d t) = dumpsChars b c d t := by
  rw [dumpsChars_shape, pyStrip_braces]

theorem sliceEnd_of_none {l : List Char} {start : Nat}
    (h : findSub ['\n'] (l.drop start) = none) : sliceEnd l start = l.length := by
  rw [sliceEnd, h]

theorem mirror_card_desc_data (b c d t : String) :
    (mirror_card_desc b c d t).data =
      d.data ++ '\n' :: '\n' :: (MIRROR_MARKER.data ++
        dumpsChars b.data c.data d.data t.data) := by
  rw [mirror_card_desc, create_mirror_metadata, String.data_append, String.data_append]
  show (d.data ++ ['\n', '\n']) ++ (MIRROR_MARKER.data ++
    dumpsChars b.data c.data d.data t.data) = _
  simp [List.append_assoc]

theorem mirror_card_desc_data_assoc (b c d t : String) :
    (mirror_card_desc b c d t).data =
      (d.data ++ '\n' :: '\n' :: MIRROR_MARKER.data) ++
        dumpsChars b.data c.data d.data t.data := by
  rw [mirror_card_desc_data]
  simp [List.append_assoc]

theorem mirror_card_desc_findSub (b c d t : String)
    (h : findSub MIRROR_MARKER.data d.data = none) :
    findSub MIRROR_MARKER.data (mirror_card_desc b c d t).data =
      some (d.data.length + 2) := by
  rw [mirror_card_desc_data]
  exact findSub_marker MIRROR_MARKER.data (by decide) (by decide) d.data
    (dumpsChars b.data c.data d.data t.data) h

theorem mirror_card_desc_drop (b c d t : String) :
    (mirror_card_desc b c d t).data.drop
        (d.data.length + 2 + MIRROR_MARKER.data.length) =
      dumpsChars b.data c.data d.data t.data := by
  rw [mirror_card_desc_data_assoc]
  refine List.drop_left' ?_
  simp only [List.length_append, List.length_cons]
  omega

/-- C1 (amended): for every source board id, source card id, mirrored-at
timestamp, and original description that does not itself contain the mirror
marker, decoding the encoded mirrored description recovers exactly the
provenance record: source board, source card, original description, and
timestamp all round-trip. -/
theorem extract_mirror_metadata_roundtrip (b c d t : String)
    (h : findSub MIRROR_MARKER.data d.data = none) :
    extract_mirror_metadata (mirror_card_desc b c d t) = some ⟨b, c, d, t⟩ := by
  rw [extract_mirror_metadata, mirror_card_desc_findSub b c d t h]
  simp only [Option.some_bind]
  have hdrop := mirror_card_desc_drop b c d t
  have hstart : d.data.length + 2 + MIRROR_MARKER.data.length =
      d.data.length + 2 + MIRROR_MARKER.data.length := rfl
  rw [hdrop]
  have hnone : findSub ['\n'] ((mirror_card_desc b c d t).data.drop
      (d.data.length + 2 + MIRROR_MARKER.data.length)) = none := by
    rw [hdrop]
    exact findSub_single_none (dumpsChars_no_newline _ _ _ _)
  rw [sliceEnd_of_none hnone]
  have hlen : (mirror_card_desc b c d t).data.length -
      (d.data.length + 2 + MIRROR_MARKER.data.length) =
      (dumpsChars b.data c.data d.data t.data).length := by
    rw [mirror_card_desc_data_assoc]
    simp only [List.length_append, List.length_cons]
    omega
  rw [hlen, List.take_length, pyStrip_dumpsChars, parseMeta_dumps]

set_option maxRecDepth 200000 in
/-- C1 counterexample: when the original description itself contains the mirror
marker, the decode of the encoded description returns `none` instead of the
provenance record — the claim's unrestricted round-trip law fails. -/
theorem extract_mirror_metadata_counterexample :
    extract_mirror_metadata
        (mirror_card_desc "B" "C" MIRROR_MARKER "T") = none := by
  decide

set_option maxRecDepth 200000 in
/-- C1 witness: a concrete marker-free description round-trips. -/
theorem extract_mirror_metadata_roundtrip_witness :
    findSub MIRROR_MARKER.data "hi".data = none ∧
    extract_mirror_metadata (mirror_card_desc "b1" "c1" "hi" "t1") =
      some ⟨"b1", "c1", "hi", "t1"⟩ :=
  ⟨by decide, extract_mirror_metadata_roundtrip "b1" "c1" "hi" "t1" (by decide)⟩

/-- C3 (amended): for every marker-free original description, the
description-stripping step of Reverse Sync applied to the encoded description
yields the original description stripped of leading and trailing whitespace
(Python `str.strip`), not necessarily the description itself. -/
theorem strip_metadata_of_encoded (b c d t : String)
    (h : findSub MIRROR_MARKER.data d.data = none) :
    strip_metadata (mirror_card_desc b c d t) = String.mk (pyStrip d.data) := by
  rw [strip_metadata, mirror_card_desc_findSub b c d t h]
  show String.mk (pyStrip ((mirror_card_desc b c d t).data.take
    (d.data.length + 2))) = String.mk (pyStrip d.data)
  have htake : (mirror_card_desc b c d t).data.take (d.data.length + 2) =
      (d.data ++ ['\n']) ++ ['\n'] := by
    have hsh : (mirror_card_desc b c d t).data =
        ((d.data ++ ['\n']) ++ ['\n']) ++ (MIRROR_MARKER.data ++
          dumpsChars b.data c.data d.data t.data) := by
      rw [mirror_card_desc_data]
      simp [List.append_assoc]
    rw [hsh]
    refine List.take_left' ?_
    simp only [List.length_append, List.length_cons, List.length_nil]
  rw [htake, pyStrip_append_ws _ '\n' (by decide), pyStrip_append_ws _ '\n' (by decide)]

set_option maxRecDepth 200000 in
/-- C3 counterexample: an original description with trailing whitespace is not
recovered verbatim — the stripping step trims it, so "x " comes back as "x",
and likewise for Unicode whitespace such as a trailing no-break space. -/
theorem strip_metadata_counterexample :
    (strip_metadata (mirror_card_desc "B" "C" "x " "T") = "x" ∧
      ("x" : String) ≠ "x ") ∧
    (strip_metadata (mirror_card_desc "B" "C" "x\u00A0" "T") = "x" ∧
      ("x" : String) ≠ "x\u00A0") :=
  ⟨⟨by decide, by decide⟩, ⟨by decide, by decide⟩⟩

set_option maxRecDepth 200000 in
/-- C3 witness: a concrete already-stripped, marker-free description. -/
theorem strip_metadata_of_encoded_witness :
    findSub MIRROR_MARKER.data "ok".data = none ∧
    strip_metadata (mirror_card_desc "b2" "c2" "ok" "t2") =
      String.mk (pyStrip "ok".data) :=
  ⟨by decide, strip_metadata_of_encoded "b2" "c2" "ok" "t2" (by decide)⟩

theorem extract_outcome_no_marker (j : String → ExtractOutcome) (desc : String)
    (h : findSub MIRROR_MARKER.data desc.data = none) :
    extract_outcome j desc = ExtractOutcome.falsy := by
  rw [extract_outcome, h]

theorem splitAtThrow_no_throw (throws : ApiCall → Bool)
    (h : ∀ c, throws c = false) (calls : List ApiCall) :
    splitAtThrow throws calls = (calls, false) := by
  induction calls with
  | nil => rfl
  | cons c rest ih =>
    rw [splitAtThrow, ih]
    simp [h c]

theorem process_master_card_not_crashed (env : Env) (ok : ApiCall → Bool)
    (j : String → ExtractOutcome) (card : Card)
    (h : extract_outcome j card.desc ≠ ExtractOutcome.badPayload) :
    (process_master_card env ok j card).1 ≠ CardOutcome.crashed := by
  rw [process_master_card]
  cases he : extract_outcome j card.desc with
  | falsy => simp
  | badPayload => exact absurd he h
  | record sb sc od =>
    by_cases hcond : sb ≠ "" ∧ sc ≠ "" <;> simp [hcond]

theorem sync_changes_fold_names (env : Env) (ok throws : ApiCall → Bool)
    (j : String → ExtractOutcome) (cards : List Card)
    (hthrow : ∀ c, throws c = false)
    (hcrash : ∀ card ∈ cards, extract_outcome j card.desc ≠ ExtractOutcome.badPayload) :
    ∀ acc : List (String × CardOutcome) × List ApiCall × Bool, acc.2.2 = false →
      ((cards.foldl (sync_step env ok throws j) acc).1.map Prod.fst) =
        acc.1.map Prod.fst ++ cards.map Card.name := by
  induction cards with
  | nil =>
    intro acc _
    simp
  | cons c cs ih =>
    intro acc hacc
    rw [List.foldl_cons]
    have hnc := process_master_card_not_crashed env ok j c
      (hcrash c (List.mem_cons_self _ _))
    have hstep : sync_step env ok throws j acc c =
        (acc.1 ++ [(c.name, (process_master_card env ok j c).1)],
          acc.2.1 ++ (process_master_card env ok j c).2, false) := by
      rw [sync_step]
      rw [if_neg (by simp [hacc])]
      rw [if_neg hnc]
      rw [splitAtThrow_no_throw throws hthrow]
      simp
    rw [hstep, ih (fun card hm => hcrash card (List.mem_cons_of_mem _ hm)) _ rfl]
    simp

/-- C8 (amended): HTTP-level transport failures — non-2xx responses — are
never fatal across cards: provided no call raises a transport exception and
no card's metadata payload is a truthy non-dict (either of which the code
leaves uncaught, aborting the whole run), every master-list card is processed
and receives an outcome.  Within one card, a failed consolidated field-update
PUT (like a failed source-card GET) returns failure immediately and skips
that card's remaining sub-steps. -/
theorem transport_errors_not_fatal (env : Env) (ok throws : ApiCall → Bool)
    (j : String → ExtractOutcome) (cards : List Card) (mc : Card) (srcId : String)
    (hthrow : ∀ c, throws c = false)
    (hcrash : ∀ card ∈ cards, extract_outcome j card.desc ≠ ExtractOutcome.badPayload)
    (hg : ok (ApiCall.getCard srcId) = true)
    (hp : ok (ApiCall.putCard srcId) = false)
    (hupd : mc.name ≠ (env.card srcId).name ∨
      strip_metadata mc.desc ≠ (env.card srcId).desc ∨
      mc.due ≠ (env.card srcId).due) :
    ((sync_changes_from_master_tr env ok throws j cards).1.map Prod.fst =
      cards.map Card.name) ∧
    sync_card_changes_tr env ok mc srcId =
      (false, [ApiCall.getCard srcId, ApiCall.putCard srcId]) := by
  constructor
  · rw [sync_changes_from_master_tr,
      sync_changes_fold_names env ok throws j cards hthrow hcrash ([], [], false) rfl]
    simp
  · rw [sync_card_changes_tr]
    rw [if_neg (by simp [hg])]
    simp only [if_pos hupd]
    rw [if_pos (by simp [hp])]

/-- C8 witness: one concrete environment with a failing PUT, no exceptions
and falsy metadata everywhere. -/
theorem transport_errors_not_fatal_witness :
    (∀ c, throwsNone c = false) ∧
    (∀ card ∈ [cexMaster],
      extract_outcome jsonFalsy card.desc ≠ ExtractOutcome.badPayload) ∧
    (cexOkNoPut (ApiCall.getCard "s") = true) ∧
    (cexOkNoPut (ApiCall.putCard "s") = false) ∧
    (cexMaster.name ≠ (cexEnv.card "s").name ∨
      strip_metadata cexMaster.desc ≠ (cexEnv.card "s").desc ∨
      cexMaster.due ≠ (cexEnv.card "s").due) ∧
    (((sync_changes_from_master_tr cexEnv cexOkNoPut throwsNone jsonFalsy
          [cexMaster]).1.map Prod.fst = [cexMaster].map Card.name) ∧
      sync_card_changes_tr cexEnv cexOkNoPut cexMaster "s" =
        (false, [ApiCall.getCard "s", ApiCall.putCard "s"])) :=
  ⟨fun _ => rfl, by decide, by decide, by decide, by decide,
    transport_errors_not_fatal cexEnv cexOkNoPut throwsNone jsonFalsy [cexMaster]
      cexMaster "s" (fun _ => rfl) (by decide) (by decide) (by decide) (by decide)⟩

set_option maxRecDepth 400000 in
/-- C8 counterexample, in both dimensions in which the claim fails: with a
member waiting to be synced, a non-2xx field PUT stops the card's processing
at the PUT — the member sub-step the all-success oracle reaches is never
attempted; and a raised network exception on the first card's source GET
aborts the whole Phase-1 loop — neither that card nor the following card
receives an outcome, though both carry valid provenance records. -/
theorem transport_error_aborts_substeps :
    (sync_card_changes_tr cexEnv cexOkNoPut cexMaster "s" =
        (false, [ApiCall.getCard "s", ApiCall.putCard "s"]) ∧
      ApiCall.postMember "s" "u1" ∈
        (sync_card_changes_tr cexEnv okAll cexMaster "s").2) ∧
    sync_changes_from_master_tr cexEnv okAll throwsGetCard jsonCanon
        [mCard1, mCard2] = ([], [ApiCall.getCard "s"], true) :=
  ⟨⟨by decide, by decide⟩, by decide⟩

/-- C7 (amended): a master-list card whose description does not contain the
mirror marker yields no provenance record and is skipped with a warning by
Reverse Sync — no API call is issued for it, whatever `json.loads` behaviour
the payload oracle has — but Phase 2's unconditional list clearing deletes
every master-list card whose DELETE succeeds, including such cards: "never
deleted" holds within Reverse Sync only, not across the full run. -/
theorem unrecognized_card_skipped_then_cleared (env : Env) (ok : ApiCall → Bool)
    (j : String → ExtractOutcome) (card : Card) (cards : List Card)
    (h : findSub MIRROR_MARKER.data card.desc.data = none) (hc : card ∈ cards)
    (hok : ok (ApiCall.deleteCard card.id) = true) :
    process_master_card env ok j card = (CardOutcome.skipped, []) ∧
    card.id ∈ clear_list_tr ok cards := by
  constructor
  · rw [process_master_card, extract_outcome_no_marker j card.desc h]
  · exact List.mem_filterMap.mpr ⟨card, hc, by simp [hok]⟩

/-- C7 witness: a concrete human-added card in a one-card master list. -/
theorem unrecognized_card_skipped_then_cleared_witness :
    (findSub MIRROR_MARKER.data humanCard.desc.data = none ∧
      humanCard ∈ [humanCard] ∧
      okAll (ApiCall.deleteCard humanCard.id) = true) ∧
    (process_master_card cexEnv okAll jsonFalsy humanCard =
        (CardOutcome.skipped, []) ∧
      humanCard.id ∈ clear_list_tr okAll [humanCard]) :=
  ⟨⟨by decide, by decide, by decide⟩,
    unrecognized_card_skipped_then_cleared cexEnv okAll jsonFalsy humanCard
      [humanCard] (by decide) (by decide) (by decide)⟩

/-- C7 counterexample: the marker-free card "Human note" yields no provenance
record and is skipped by Phase 1, yet its id is deleted by the Phase-2
clearing — it is not preserved over the course of a full run. -/
theorem unrecognized_card_deleted_counterexample :
    findSub MIRROR_MARKER.data humanCard.desc.data = none ∧
    extract_mirror_metadata humanCard.desc = none ∧
    process_master_card cexEnv okAll jsonFalsy humanCard =
      (CardOutcome.skipped, []) ∧
    clear_list_tr okAll [humanCard] = ["h1"] :=
  ⟨by decide, by decide, by decide, by decide⟩

end MirrorSync
